import Mathlib

/-!
# ObjectWrap (inc/napa/module/object-wrap.h)

A shallow embedding of the class napa::module::ObjectWrap, the base class that ties
the lifetime of a native C++ object to a host v8::Object.

* The v8 types used by the header (Persistent, Local, Object) are not part of the
  repository; they are modelled from section 6 of the specification and carry the
  names of the v8 calls the header makes.
* Every assert of the header is a fatal outcome of the embedded method (the
  embedding is of a build with asserts enabled).
* The counter _refs is a C++ int; it is an Int here and every arithmetic step on it
  is reduced into the 32 bit range by wrapInt32.
-/

namespace napa

/-! ## Identities -/

/-- Address of a native ObjectWrap instance (the value of the C++ this pointer). -/
abbrev ObjId := Nat

/-- Identity of a host object (a v8::Object living in the host object table). -/
abbrev SlotId := Nat

/-- An aligned pointer stored in an internal field: none is the null pointer (nothing
stored yet), some i is the address of the native object i. -/
abbrev Ptr := Option ObjId

/-- Modelled from the spec: v8::Local of v8::Object (v8.h is not in the repository).
A scoped handle; none is the empty handle, some s refers to the host object s. -/
abbrev Local := Option SlotId

/-! ## Host collaborator (v8) -/

/-- Modelled from the spec: v8::Object (v8.h is not in the repository). A host slot
capable of carrying native back-pointer fields; fields lists its internal fields. -/
structure HostObject where
  fields : List Ptr
deriving DecidableEq, Repr

/-- Modelled from the spec: v8::Object::InternalFieldCount. -/
def HostObject.InternalFieldCount (h : HostObject) : Nat :=
  h.fields.length

/-- Modelled from the spec: v8::Object::GetAlignedPointerFromInternalField. Reads the
pointer stored in the internal field with the given index. -/
def HostObject.GetAlignedPointerFromInternalField (h : HostObject) (index : Nat) : Ptr :=
  h.fields.getD index none

/-- Modelled from the spec: v8::Object::SetAlignedPointerInInternalField. Stores a
pointer in the internal field with the given index. -/
def HostObject.SetAlignedPointerInInternalField (h : HostObject) (index : Nat) (value : Ptr) :
    HostObject :=
  { fields := h.fields.set index value }

/-- The host object table: every slot identity denotes a host object. -/
abbrev Host := SlotId → HostObject

/-- Write of one host object into the host object table. -/
def Host.store (host : Host) (s : SlotId) (h : HostObject) : Host :=
  fun t => if t = s then h else host t

/-- Modelled from the spec: the storage cell behind a non-empty v8::Persistent (v8.h
is not in the repository). It records the host object referred to, the weak
finaliser registration (some p when a weak callback with parameter p is registered,
the callback always being ObjectWrap::WeakCallback), the independent mark, and
whether the collector found the handle to be the only reference to the object. -/
structure GlobalNode where
  object : SlotId
  weak : Option ObjId
  independent : Bool
  nearDeath : Bool
deriving DecidableEq, Repr

/-- Modelled from the spec: v8::Persistent of v8::Object (v8.h is not in the
repository). The handle is empty when val is none. -/
structure Persistent where
  val : Option GlobalNode
deriving DecidableEq, Repr

/-- Modelled from the spec: v8::PersistentBase::IsEmpty. -/
def Persistent.IsEmpty (p : Persistent) : Bool :=
  p.val.isNone

/-- Modelled from the spec: v8::PersistentBase::IsWeak; whether a weak finaliser is
registered. An empty handle is not weak. -/
def Persistent.IsWeak (p : Persistent) : Bool :=
  match p.val with
  | some n => n.weak.isSome
  | none => false

/-- Modelled from the spec: v8::PersistentBase::IsNearDeath. An empty handle is not
near death. -/
def Persistent.IsNearDeath (p : Persistent) : Bool :=
  match p.val with
  | some n => n.nearDeath
  | none => false

/-- Modelled from the spec: v8::PersistentBase::ClearWeak, the call named
clear weak finalizer in section 6. Withdraws the weak finaliser registration. -/
def Persistent.ClearWeak (p : Persistent) : Persistent :=
  { val := p.val.map fun n => { n with weak := none } }

/-- Modelled from the spec: v8::PersistentBase::Reset without arguments. Releases the
storage cell; the handle becomes empty. -/
def Persistent.Reset (_p : Persistent) : Persistent :=
  { val := none }

/-- Modelled from the spec: v8::PersistentBase::Reset(isolate, other). Releases the
current storage cell and takes a fresh strong cell referring to the given host
object. -/
def Persistent.ResetTo (_p : Persistent) (other : SlotId) : Persistent :=
  { val := some { object := other, weak := none, independent := false, nearDeath := false } }

/-- Modelled from the spec: v8::PersistentBase::SetWeak(parameter, callback, type),
the call named register weak finalizer in section 6. -/
def Persistent.SetWeak (p : Persistent) (parameter : ObjId) : Persistent :=
  { val := p.val.map fun n => { n with weak := some parameter } }

/-- Modelled from the spec: v8::PersistentBase::MarkIndependent. -/
def Persistent.MarkIndependent (p : Persistent) : Persistent :=
  { val := p.val.map fun n => { n with independent := true } }

/-- Modelled from the spec: v8::Local::New(isolate, persistent). A fresh scoped handle
referring to the same host object; empty when the persistent handle is empty. -/
def Local.New (p : Persistent) : Local :=
  p.val.map fun n => n.object

/-! ## Machine integers -/

/-- Reduction of an integer into the range of a 32 bit two-complement C++ int. -/
def wrapInt32 (x : Int) : Int :=
  (x + 2147483648) % 4294967296 - 2147483648

/-! ## Outcomes -/

/-- Result of a method that may hit an assert: ok carries the state on return, fatal
carries the state at the failed assert. -/
inductive Outcome (σ : Type) where
  | ok (s : σ)
  | fatal (s : σ)
deriving DecidableEq, Repr

/-- Whether the method returned normally. -/
def Outcome.isOk {σ : Type} : Outcome σ → Bool
  | .ok _ => true
  | .fatal _ => false

/-- Whether the method hit a failed assert. -/
def Outcome.isFatal {σ : Type} : Outcome σ → Bool
  | .ok _ => false
  | .fatal _ => true

/-! ## The class ObjectWrap -/

/-- The data members of ObjectWrap: the counter _refs and the handle _handle. -/
structure ObjectWrap where
  _refs : Int
  _handle : Persistent
deriving DecidableEq, Repr

namespace ObjectWrap

/-- The constructor ObjectWrap(): _refs = 0, and _handle default constructed (empty). -/
def new : ObjectWrap :=
  { _refs := 0, _handle := { val := none } }

/-- The accessor persistent(). -/
def persistent (o : ObjectWrap) : Persistent :=
  o._handle

/-- The accessor handle(): a fresh Local made from persistent(). The object is not
written. -/
def handle (o : ObjectWrap) : Local :=
  Local.New o.persistent

/-- The method MakeWeak(): SetWeak(this, WeakCallback, kParameter), then
MarkIndependent(). -/
def MakeWeak (this : ObjId) (o : ObjectWrap) : ObjectWrap :=
  { o with _handle := (o.persistent.SetWeak this).MarkIndependent }

/-- The method Wrap(handle). The parameter is a non-empty Local (the header
dereferences it without an emptiness check), given by the host object it refers to.
The method writes the back-pointer into internal field 0 of that host object. -/
def Wrap (this : ObjId) (o : ObjectWrap) (host : Host) (handle : SlotId) :
    Outcome (ObjectWrap × Host) :=
  if ¬ o.persistent.IsEmpty then .fatal (o, host)
  else if ¬ (host handle).InternalFieldCount > 0 then .fatal (o, host)
  else
    let host1 := host.store handle ((host handle).SetAlignedPointerInInternalField 0 (some this))
    let o1 := { o with _handle := o.persistent.ResetTo handle }
    .ok (MakeWeak this o1, host1)

/-- The method Ref(). -/
def Ref (o : ObjectWrap) : Outcome ObjectWrap :=
  if ¬ (¬ o.persistent.IsEmpty) then .fatal o
  else .ok { _refs := wrapInt32 (o._refs + 1), _handle := o.persistent.ClearWeak }

/-- The method Unref(). -/
def Unref (this : ObjId) (o : ObjectWrap) : Outcome ObjectWrap :=
  if ¬ (¬ o.persistent.IsEmpty) then .fatal o
  else if ¬ (¬ o.persistent.IsWeak) then .fatal o
  else if ¬ (o._refs > 0) then .fatal o
  else
    let o1 := { o with _refs := wrapInt32 (o._refs - 1) }
    if o1._refs = 0 then .ok (MakeWeak this o1) else .ok o1

/-- The destructor. It returns at once on an empty handle; otherwise it asserts that
the handle is near death, clears the weak registration and resets the handle. -/
def destructor (o : ObjectWrap) : Outcome ObjectWrap :=
  if o.persistent.IsEmpty then .ok o
  else if ¬ o.persistent.IsNearDeath then .fatal o
  else .ok { o with _handle := o.persistent.ClearWeak.Reset }

/-- The static method WeakCallback(data), applied to wrap = data.GetParameter().
After the assert it resets the handle and deletes wrap; the outcome carries the
members of wrap as the destructor leaves them, at the point where the storage of
wrap is given back. -/
def WeakCallback (wrap : ObjectWrap) : Outcome ObjectWrap :=
  if ¬ (wrap._refs = 0) then .fatal wrap
  else destructor { wrap with _handle := wrap._handle.Reset }

end ObjectWrap

/-- The static method Unwrap(handle), here on the host object table. The result none
is a failed assert; some p is the pointer the method returns (the two static casts
do not change which object the pointer designates). -/
def Unwrap (host : Host) (handle : Local) : Option Ptr :=
  match handle with
  | none => none
  | some s =>
    if ¬ (host s).InternalFieldCount > 0 then none
    else some ((host s).GetAlignedPointerFromInternalField 0)

/-! ## Lifetime modes -/

/-- The lifetime modes of the specification, read off the handle. -/
inductive Mode where
  | Unattached
  | Weak
  | Strong
deriving DecidableEq, Repr

/-- The lifetime mode of an object: Unattached when the handle is empty, Weak when a
weak finaliser is registered on it, Strong when the handle is non-empty and not
weak. -/
def ObjectWrap.lifetime_mode (o : ObjectWrap) : Mode :=
  if o.persistent.IsEmpty then .Unattached
  else if o.persistent.IsWeak then .Weak
  else .Strong

/-! ## Sequences of calls on one object -/

/-- The calls a client makes on an attached object: pin, unpin and export_handle. -/
inductive Call where
  | Ref
  | Unref
  | handle
deriving DecidableEq, Repr

/-- One call on the object at address this. -/
def ObjectWrap.call (this : ObjId) (o : ObjectWrap) : Call → Outcome ObjectWrap
  | .Ref => o.Ref
  | .Unref => o.Unref this
  | .handle => .ok o

/-- A sequence of calls on the object at address this; it stops at the first failed
assert. -/
def ObjectWrap.calls (this : ObjId) (o : ObjectWrap) : List Call → Outcome ObjectWrap
  | [] => .ok o
  | c :: cs =>
    match o.call this c with
    | .ok o1 => ObjectWrap.calls this o1 cs
    | .fatal s => .fatal s

/-! ## The system: native heap, host object table, collector -/

/-- The storage of a native object address: never allocated, holding a live object,
or given back by delete. An address names one object over a whole run. -/
inductive Cell where
  | unallocated
  | live (o : ObjectWrap)
  | freed
deriving DecidableEq, Repr

/-- The native heap together with the host object table. -/
structure World where
  heap : ObjId → Cell
  host : Host

/-- The world before any native object is constructed. -/
def World.init (host : Host) : World :=
  { heap := fun _ => .unallocated, host := host }

/-- Write of one heap cell. -/
def World.setCell (w : World) (i : ObjId) (c : Cell) : World :=
  { w with heap := fun j => if j = i then c else w.heap j }

/-- The steps of the system: construction of an object, the methods called on an
object, and the host collector firing the weak finaliser registered on the handle
of an object. -/
inductive Op where
  | construct (this : ObjId)
  | Wrap (this : ObjId) (handle : SlotId)
  | Ref (this : ObjId)
  | Unref (this : ObjId)
  | handle (this : ObjId)
  | collect (this : ObjId)
deriving DecidableEq, Repr

/-- The collector firing on the handle of the live object o at address i: enabled
only while a weak finaliser is registered on that handle. The collector marks the
handle near death and invokes WeakCallback on the registered parameter; delete gives
the storage of that object back. -/
def World.collect (w : World) (i : ObjId) (o : ObjectWrap) : Option (Outcome World) :=
  match o._handle.val with
  | none => none
  | some n =>
    match n.weak with
    | none => none
    | some p =>
      let w1 := w.setCell i (.live { o with _handle := { val := some { n with nearDeath := true } } })
      match w1.heap p with
      | .live wrap =>
        match wrap.WeakCallback with
        | .ok _ => some (.ok (w1.setCell p .freed))
        | .fatal _ => some (.fatal w1)
      | _ => none

/-- One step of the system. The result none means that the step is not enabled: a
method call needs a live object, construction needs a never allocated address, and
the collector needs a registered weak finaliser. -/
def World.exec (w : World) : Op → Option (Outcome World)
  | .construct i =>
    match w.heap i with
    | .unallocated => some (.ok (w.setCell i (.live ObjectWrap.new)))
    | _ => none
  | .Wrap i s =>
    match w.heap i with
    | .live o =>
      match o.Wrap i w.host s with
      | .ok (o1, host1) => some (.ok { heap := (w.setCell i (.live o1)).heap, host := host1 })
      | .fatal _ => some (.fatal w)
    | _ => none
  | .Ref i =>
    match w.heap i with
    | .live o =>
      match o.Ref with
      | .ok o1 => some (.ok (w.setCell i (.live o1)))
      | .fatal _ => some (.fatal w)
    | _ => none
  | .Unref i =>
    match w.heap i with
    | .live o =>
      match o.Unref i with
      | .ok o1 => some (.ok (w.setCell i (.live o1)))
      | .fatal _ => some (.fatal w)
    | _ => none
  | .handle i =>
    match w.heap i with
    | .live _ => some (.ok w)
    | _ => none
  | .collect i =>
    match w.heap i with
    | .live o => w.collect i o
    | _ => none

/-- A run: every step is enabled and returns normally. -/
def World.run (w : World) : List Op → Option World
  | [] => some w
  | op :: ops =>
    match w.exec op with
    | some (.ok w1) => World.run w1 ops
    | _ => none

/-- The system step that performs a call on the object at address this. -/
def Call.toOp (this : ObjId) : Call → Op
  | .Ref => .Ref this
  | .Unref => .Unref this
  | .handle => .handle this

/-- The address of the object a step is about. -/
def Op.target : Op → ObjId
  | .construct i => i
  | .Wrap i _ => i
  | .Ref i => i
  | .Unref i => i
  | .handle i => i
  | .collect i => i

/-- Whether a step is a collector firing. -/
def Op.isCollect : Op → Bool
  | .collect _ => true
  | _ => false

/-- A host object table in which every host object has one internal field holding
the null pointer. -/
def Host.blank : Host :=
  fun _ => { fields := [none] }

/-- Whether a step is a Wrap. -/
def Op.isWrap : Op → Bool
  | .Wrap _ _ => true
  | _ => false

/-- The host object passed to a Wrap step (0 for the other steps, which pass none). -/
def Op.slot : Op → SlotId
  | .Wrap _ s => s
  | _ => 0

/-- The host objects passed to the Wrap steps of a sequence of steps, in order. -/
def Op.wrapSlots (ops : List Op) : List SlotId :=
  (ops.filter Op.isWrap).map Op.slot

/-- The number of pins outstanding after a sequence of calls: the calls to Ref minus
the calls to Unref. -/
def Call.outstanding (cs : List Call) : Int :=
  (cs.count Call.Ref : Int) - (cs.count Call.Unref : Int)

/-- The object at address this is attached with a counter in the range of an int, and
a weak finaliser, when one is registered, is as MakeWeak leaves it (parameter this,
independent mark set) with the counter at 0. -/
def ObjectWrap.WellAttached (this : ObjId) (o : ObjectWrap) : Prop :=
  ∃ n, o._handle.val = some n
    ∧ (n.weak = none ∨ (n.weak = some this ∧ n.independent = true ∧ o._refs = 0))
    ∧ -2147483648 ≤ o._refs ∧ o._refs ≤ 2147483647

/-- The weak registration of the object at address this is in step with its counter:
the handle is non-empty and either the finaliser is registered as MakeWeak leaves it
(parameter this, independent mark set) while the counter is 0, or no finaliser is
registered while the counter is positive. -/
def ObjectWrap.InStep (this : ObjId) (o : ObjectWrap) : Prop :=
  ∃ n, o._handle.val = some n
    ∧ ((n.weak = some this ∧ n.independent = true ∧ o._refs = 0)
        ∨ (n.weak = none ∧ 0 < o._refs))

/-! ## Invariant of the system -/

/-- Consistency of the object at address i: with an empty handle the counter is 0, and
a registered weak finaliser carries the address of the object as its parameter and
is only there while the counter is 0. -/
def ObjectWrap.Consistent (i : ObjId) (o : ObjectWrap) : Prop :=
  (o._handle.val = none → o._refs = 0)
    ∧ ∀ n p, o._handle.val = some n → n.weak = some p → p = i ∧ o._refs = 0

/-- Every live object of the world is consistent. -/
def World.Inv (w : World) : Prop :=
  ∀ i o, w.heap i = .live o → o.Consistent i

end napa

namespace napa

/-! ## Basic facts about the handle and the counter -/

theorem wrapInt32_of_range (x : Int) (h1 : -2147483648 ≤ x) (h2 : x ≤ 2147483647) :
    wrapInt32 x = x := by
  unfold wrapInt32
  omega

@[simp] theorem Persistent.IsEmpty_ClearWeak (p : Persistent) :
    p.ClearWeak.IsEmpty = p.IsEmpty := by
  cases p with
  | mk v => cases v <;> rfl

@[simp] theorem Persistent.IsWeak_ClearWeak (p : Persistent) : p.ClearWeak.IsWeak = false := by
  cases p with
  | mk v => cases v <;> rfl

@[simp] theorem Persistent.ClearWeak_ClearWeak (p : Persistent) :
    p.ClearWeak.ClearWeak = p.ClearWeak := by
  cases p with
  | mk v => cases v <;> rfl

@[simp] theorem Persistent.IsEmpty_MakeWeak (p : Persistent) (this : ObjId) :
    ((p.SetWeak this).MarkIndependent).IsEmpty = p.IsEmpty := by
  cases p with
  | mk v => cases v <;> rfl

theorem Persistent.IsWeak_MakeWeak (p : Persistent) (this : ObjId) (h : p.IsEmpty = false) :
    ((p.SetWeak this).MarkIndependent).IsWeak = true := by
  cases p with
  | mk v =>
    cases v with
    | none => simp [Persistent.IsEmpty] at h
    | some n => rfl

theorem Persistent.IsWeak_false_of_IsEmpty (p : Persistent) (h : p.IsEmpty = true) :
    p.IsWeak = false := by
  cases p with
  | mk v =>
    cases v with
    | none => rfl
    | some n => simp [Persistent.IsEmpty] at h

/-- Ref on a non-empty handle returns normally, with the counter incremented in int
arithmetic and the weak registration withdrawn. -/
theorem ObjectWrap.Ref_of_attached (o : ObjectWrap) (h : o.persistent.IsEmpty = false) :
    o.Ref = .ok { _refs := wrapInt32 (o._refs + 1), _handle := o.persistent.ClearWeak } := by
  simp [ObjectWrap.Ref, h]

/-- Ref on an empty handle fails at its assert. -/
theorem ObjectWrap.Ref_of_empty (o : ObjectWrap) (h : o.persistent.IsEmpty = true) :
    o.Ref = .fatal o := by
  simp [ObjectWrap.Ref, h]

/-- The outcome of Unref when its three asserts hold. -/
theorem ObjectWrap.Unref_of_pinned (this : ObjId) (o : ObjectWrap)
    (he : o.persistent.IsEmpty = false) (hw : o.persistent.IsWeak = false) (hr : 0 < o._refs) :
    o.Unref this =
      if wrapInt32 (o._refs - 1) = 0 then
        .ok (ObjectWrap.MakeWeak this { o with _refs := wrapInt32 (o._refs - 1) })
      else .ok { o with _refs := wrapInt32 (o._refs - 1) } := by
  simp [ObjectWrap.Unref, he, hw, hr]

/-- Unref fails, leaving the state as it was, when one of its asserts does not hold. -/
theorem ObjectWrap.Unref_of_not_pinned (this : ObjId) (o : ObjectWrap)
    (h : o.persistent.IsEmpty = true ∨ o.persistent.IsWeak = true ∨ o._refs ≤ 0) :
    o.Unref this = .fatal o := by
  unfold ObjectWrap.Unref
  rcases h with h | h | h
  · simp [h]
  · by_cases he : o.persistent.IsEmpty = true <;> simp [he, h]
  · by_cases he : o.persistent.IsEmpty = true <;>
      by_cases hw : o.persistent.IsWeak = true <;> simp [he, hw, not_lt.mpr h]

/-! ## Runs of calls on one attached object -/

/-- The state of an object right after a successful Wrap on a fresh object. -/
theorem ObjectWrap.Wrap_new (this : ObjId) (host : Host) (handle : SlotId) (o1 : ObjectWrap)
    (host1 : Host) (h : ObjectWrap.new.Wrap this host handle = .ok (o1, host1)) :
    o1 = { _refs := 0, _handle := { val := some ⟨handle, some this, true, false⟩ } } := by
  unfold ObjectWrap.Wrap at h
  split at h
  · cases h
  · split at h
    · cases h
    · injection h with h
      injection h with h1 h2
      rw [← h1]
      rfl

/-- A sequence that starts with Ref on an attached object continues from the pinned
state. -/
theorem ObjectWrap.calls_Ref_cons (this : ObjId) (o : ObjectWrap) (cs : List Call)
    (he : o.persistent.IsEmpty = false) :
    o.calls this (Call.Ref :: cs)
      = ObjectWrap.calls this
          { _refs := wrapInt32 (o._refs + 1), _handle := o.persistent.ClearWeak } cs := by
  simp only [ObjectWrap.calls, ObjectWrap.call, ObjectWrap.Ref_of_attached o he]

/-- A run of k > 0 calls to Ref on an attached object returns normally; the counter
is the int sum and the weak registration is withdrawn. -/
theorem ObjectWrap.calls_replicate_Ref (this : ObjId) :
    ∀ (k : Nat) (o : ObjectWrap), o.persistent.IsEmpty = false →
      o.calls this (List.replicate (k + 1) Call.Ref)
        = .ok { _refs := wrapInt32 (o._refs + (k + 1 : Nat)), _handle := o.persistent.ClearWeak } := by
  intro k
  induction k with
  | zero =>
    intro o he
    simp [ObjectWrap.calls, ObjectWrap.call, ObjectWrap.Ref_of_attached o he]
  | succ k ih =>
    intro o he
    rw [List.replicate_succ, ObjectWrap.calls_Ref_cons this o _ he,
      ih _ (by simpa [ObjectWrap.persistent] using he)]
    simp only [ObjectWrap.persistent, Persistent.ClearWeak_ClearWeak]
    congr 2
    unfold wrapInt32
    push_cast
    omega

/-- A successful sequence of calls is successful up to each of its steps. -/
theorem ObjectWrap.calls_take (this : ObjId) :
    ∀ (cs : List Call) (o o1 : ObjectWrap) (k : Nat), o.calls this cs = .ok o1 →
      ∃ o2, o.calls this (cs.take k) = .ok o2 := by
  intro cs
  induction cs with
  | nil => intro o o1 k _; exact ⟨o, by simp [ObjectWrap.calls]⟩
  | cons c cs ih =>
    intro o o1 k h
    cases k with
    | zero => exact ⟨o, by simp [ObjectWrap.calls]⟩
    | succ k =>
      simp only [ObjectWrap.calls] at h
      cases hc : o.call this c with
      | fatal s => rw [hc] at h; cases h
      | ok o2 =>
        rw [hc] at h
        obtain ⟨o3, h3⟩ := ih o2 o1 k h
        exact ⟨o3, by simp [ObjectWrap.calls, hc, h3]⟩

/-- The lifetime mode is Strong exactly on a non-empty handle without weak
registration, and Weak exactly when a weak finaliser is registered. -/
theorem ObjectWrap.lifetime_mode_cases (o : ObjectWrap) :
    (o.lifetime_mode = Mode.Strong ↔ o.persistent.IsEmpty = false ∧ o.persistent.IsWeak = false)
      ∧ (o.lifetime_mode = Mode.Weak ↔ o.persistent.IsWeak = true)
      ∧ (o.lifetime_mode = Mode.Unattached ↔ o.persistent.IsEmpty = true) := by
  unfold ObjectWrap.lifetime_mode
  cases he : o.persistent.IsEmpty
  · cases hw : o.persistent.IsWeak <;> simp
  · simp [Persistent.IsWeak_false_of_IsEmpty _ he]

/-! ## The invariant is kept by every step -/

theorem ObjectWrap.Consistent_new (i : ObjId) : ObjectWrap.new.Consistent i := by
  refine ⟨fun _ => rfl, ?_⟩
  intro n p h
  cases h

theorem ObjectWrap.Consistent_Wrap (i : ObjId) (o o1 : ObjectWrap) (host host1 : Host)
    (s : SlotId) (hc : o.Consistent i) (h : o.Wrap i host s = .ok (o1, host1)) :
    o1.Consistent i := by
  unfold ObjectWrap.Wrap at h
  split at h
  · cases h
  · rename_i he
    split at h
    · cases h
    · injection h with h
      injection h with h1 h2
      subst h1
      have hn : o._handle.val = none := by
        cases hv : o._handle.val with
        | none => rfl
        | some n => simp [ObjectWrap.persistent, Persistent.IsEmpty, hv] at he
      have hr := hc.1 hn
      refine ⟨?_, ?_⟩
      · intro h; cases h
      · intro n p hn2 hp
        simp only [ObjectWrap.MakeWeak, ObjectWrap.persistent, Persistent.ResetTo,
          Persistent.SetWeak, Persistent.MarkIndependent, Option.map_some'] at hn2
        injection hn2 with hn2
        subst hn2
        simp only [Option.some.injEq] at hp
        exact ⟨hp.symm, hr⟩

theorem ObjectWrap.Consistent_Ref (i : ObjId) (o o1 : ObjectWrap) (h : o.Ref = .ok o1) :
    o1.Consistent i := by
  cases he : o.persistent.IsEmpty with
  | true => rw [ObjectWrap.Ref_of_empty o he] at h; cases h
  | false =>
    rw [ObjectWrap.Ref_of_attached o he] at h
    injection h with h
    subst h
    cases hv : o._handle.val with
    | none => simp [ObjectWrap.persistent, Persistent.IsEmpty, hv] at he
    | some m =>
      refine ⟨?_, ?_⟩
      · intro hn
        simp [ObjectWrap.persistent, Persistent.ClearWeak, hv] at hn
      · intro n p hn hp
        simp only [ObjectWrap.persistent, Persistent.ClearWeak, hv, Option.map_some'] at hn
        injection hn with hn
        subst hn
        cases hp

theorem ObjectWrap.Consistent_Unref (i : ObjId) (o o1 : ObjectWrap)
    (h : o.Unref i = .ok o1) : o1.Consistent i := by
  by_cases hp : o.persistent.IsEmpty = false ∧ o.persistent.IsWeak = false ∧ 0 < o._refs
  · obtain ⟨he, hw, hr⟩ := hp
    rw [ObjectWrap.Unref_of_pinned i o he hw hr] at h
    cases hv : o._handle.val with
    | none => simp [ObjectWrap.persistent, Persistent.IsEmpty, hv] at he
    | some m =>
      have hm : m.weak = none := by
        cases hmw : m.weak with
        | none => rfl
        | some q => simp [ObjectWrap.persistent, Persistent.IsWeak, hv, hmw] at hw
      split at h
      · rename_i hz
        injection h with h
        subst h
        refine ⟨?_, ?_⟩
        · intro hn
          simp [ObjectWrap.MakeWeak, ObjectWrap.persistent, Persistent.SetWeak,
            Persistent.MarkIndependent, hv] at hn
        · intro n p hn hq
          simp only [ObjectWrap.MakeWeak, ObjectWrap.persistent, Persistent.SetWeak,
            Persistent.MarkIndependent, hv, Option.map_some'] at hn
          injection hn with hn
          subst hn
          simp only [Option.some.injEq] at hq
          exact ⟨hq.symm, hz⟩
      · injection h with h
        subst h
        refine ⟨?_, ?_⟩
        · intro hn
          simp [hv] at hn
        · intro n p hn hq
          simp only [hv, Option.some.injEq] at hn
          subst hn
          rw [hm] at hq
          cases hq
  · have : o.Unref i = .fatal o := by
      apply ObjectWrap.Unref_of_not_pinned
      by_cases he : o.persistent.IsEmpty = true
      · exact Or.inl he
      · by_cases hw : o.persistent.IsWeak = true
        · exact Or.inr (Or.inl hw)
        · right; right
          simp only [Bool.not_eq_true] at he hw
          simp only [he, hw, true_and, not_lt] at hp
          exact hp
    rw [this] at h
    cases h

@[simp] theorem World.heap_setCell_same (w : World) (i : ObjId) (c : Cell) :
    (w.setCell i c).heap i = c := by
  simp [World.setCell]

theorem World.heap_setCell_other (w : World) (i j : ObjId) (c : Cell) (h : j ≠ i) :
    (w.setCell i c).heap j = w.heap j := by
  simp [World.setCell, h]

@[simp] theorem World.host_setCell (w : World) (i : ObjId) (c : Cell) :
    (w.setCell i c).host = w.host := rfl

@[simp] theorem World.setCell_setCell (w : World) (i : ObjId) (c d : Cell) :
    (w.setCell i c).setCell i d = w.setCell i d := by
  unfold World.setCell
  congr 1
  funext j
  by_cases h : j = i <;> simp [h]

/-- WeakCallback on an object whose counter is 0 returns normally and leaves the
handle empty. -/
theorem ObjectWrap.WeakCallback_of_refs_zero (wrap : ObjectWrap) (h : wrap._refs = 0) :
    wrap.WeakCallback = .ok { wrap with _handle := { val := none } } := by
  simp [ObjectWrap.WeakCallback, h, ObjectWrap.destructor, ObjectWrap.persistent,
    Persistent.Reset, Persistent.IsEmpty]

/-- WeakCallback on an object whose counter is not 0 fails at its assert. -/
theorem ObjectWrap.WeakCallback_of_refs_ne_zero (wrap : ObjectWrap) (h : wrap._refs ≠ 0) :
    wrap.WeakCallback = .fatal wrap := by
  simp [ObjectWrap.WeakCallback, h]

/-- The collector on a consistent live object: the firing is enabled exactly while a
weak finaliser is registered, and it then returns normally and frees the object. -/
theorem World.collect_of_consistent (w : World) (i : ObjId) (o : ObjectWrap)
    (hc : o.Consistent i) :
    w.collect i o
      = if o.persistent.IsWeak = true then some (.ok (w.setCell i .freed)) else none := by
  unfold World.collect
  cases hv : o._handle.val with
  | none => simp [ObjectWrap.persistent, Persistent.IsWeak, hv]
  | some n =>
    cases hn : n.weak with
    | none => simp [ObjectWrap.persistent, Persistent.IsWeak, hv, hn]
    | some p =>
      obtain ⟨hp, hr⟩ := hc.2 n p hv hn
      subst hp
      simp only [hn, World.heap_setCell_same, World.setCell_setCell]
      rw [ObjectWrap.WeakCallback_of_refs_zero
        { _refs := o._refs, _handle := { val := some { n with weak := some p, nearDeath := true } } }
        hr]
      simp [ObjectWrap.persistent, Persistent.IsWeak, hv, hn]

theorem World.Inv_init (host : Host) : (World.init host).Inv := by
  intro i o h
  cases h

theorem World.Inv_setCell_live (w : World) (i : ObjId) (o : ObjectWrap) (hw : w.Inv)
    (ho : o.Consistent i) : (w.setCell i (.live o)).Inv := by
  intro j o2 h
  by_cases hj : j = i
  · subst hj
    rw [World.heap_setCell_same] at h
    injection h with h
    subst h
    exact ho
  · rw [World.heap_setCell_other w i j _ hj] at h
    exact hw j o2 h

theorem World.Inv_setCell_freed (w : World) (i : ObjId) (hw : w.Inv) :
    (w.setCell i .freed).Inv := by
  intro j o2 h
  by_cases hj : j = i
  · subst hj
    rw [World.heap_setCell_same] at h
    cases h
  · rw [World.heap_setCell_other w i j _ hj] at h
    exact hw j o2 h

/-- A successful step keeps every live object consistent. -/
theorem World.Inv_exec (w w1 : World) (op : Op) (hw : w.Inv)
    (h : w.exec op = some (.ok w1)) : w1.Inv := by
  cases op with
  | construct i =>
    simp only [World.exec] at h
    cases hh : w.heap i <;> rw [hh] at h <;> simp only [Option.some.injEq, Outcome.ok.injEq] at h
      <;> try cases h
    exact World.Inv_setCell_live w i _ hw (ObjectWrap.Consistent_new i)
  | Wrap i s =>
    simp only [World.exec] at h
    cases hh : w.heap i with
    | unallocated => rw [hh] at h; cases h
    | freed => rw [hh] at h; cases h
    | live o =>
      rw [hh] at h
      simp only at h
      cases hr : o.Wrap i w.host s with
      | fatal x => rw [hr] at h; cases h
      | ok x =>
        obtain ⟨o1, host1⟩ := x
        rw [hr] at h
        simp only [Option.some.injEq, Outcome.ok.injEq] at h
        subst h
        exact World.Inv_setCell_live w i o1 hw
          (ObjectWrap.Consistent_Wrap i o o1 w.host host1 s (hw i o hh) hr)
  | Ref i =>
    simp only [World.exec] at h
    cases hh : w.heap i with
    | unallocated => rw [hh] at h; cases h
    | freed => rw [hh] at h; cases h
    | live o =>
      rw [hh] at h
      simp only at h
      cases hr : o.Ref with
      | fatal x => rw [hr] at h; cases h
      | ok o1 =>
        rw [hr] at h
        simp only [Option.some.injEq, Outcome.ok.injEq] at h
        subst h
        exact World.Inv_setCell_live w i o1 hw (ObjectWrap.Consistent_Ref i o o1 hr)
  | Unref i =>
    simp only [World.exec] at h
    cases hh : w.heap i with
    | unallocated => rw [hh] at h; cases h
    | freed => rw [hh] at h; cases h
    | live o =>
      rw [hh] at h
      simp only at h
      cases hr : o.Unref i with
      | fatal x => rw [hr] at h; cases h
      | ok o1 =>
        rw [hr] at h
        simp only [Option.some.injEq, Outcome.ok.injEq] at h
        subst h
        exact World.Inv_setCell_live w i o1 hw (ObjectWrap.Consistent_Unref i o o1 hr)
  | handle i =>
    simp only [World.exec] at h
    cases hh : w.heap i with
    | unallocated => rw [hh] at h; cases h
    | freed => rw [hh] at h; cases h
    | live o =>
      rw [hh] at h
      simp only [Option.some.injEq, Outcome.ok.injEq] at h
      subst h
      exact hw
  | collect i =>
    simp only [World.exec] at h
    cases hh : w.heap i with
    | unallocated => rw [hh] at h; cases h
    | freed => rw [hh] at h; cases h
    | live o =>
      rw [hh] at h
      simp only at h
      rw [World.collect_of_consistent w i o (hw i o hh)] at h
      split at h
      · simp only [Option.some.injEq, Outcome.ok.injEq] at h
        subst h
        exact World.Inv_setCell_freed w i hw
      · cases h

/-- Every world of a run that starts in a consistent world is consistent. -/
theorem World.Inv_run : ∀ (ops : List Op) (w w1 : World), w.Inv → w.run ops = some w1 → w1.Inv := by
  intro ops
  induction ops with
  | nil =>
    intro w w1 hw h
    simp only [World.run, Option.some.injEq] at h
    subst h
    exact hw
  | cons op ops ih =>
    intro w w1 hw h
    simp only [World.run] at h
    cases he : w.exec op with
    | none => rw [he] at h; cases h
    | some r =>
      cases r with
      | fatal x => rw [he] at h; cases h
      | ok w2 =>
        rw [he] at h
        exact ih w2 w1 (World.Inv_exec w w2 op hw he) h

/-- The scenario of a pinned object: after construct, Wrap, Ref on a host object with
an internal field the collector step is not enabled, and after the matching Unref
it is. -/
theorem World.run_attach_pin (host : Host) (i : ObjId) (s : SlotId)
    (hs : 0 < (host s).InternalFieldCount) :
    ((World.init host).run [.construct i, .Wrap i s, .Ref i]).isSome = true
      ∧ (World.init host).run [.construct i, .Wrap i s, .Ref i, .collect i] = none
      ∧ ((World.init host).run [.construct i, .Wrap i s, .Ref i, .Unref i, .collect i]).isSome
          = true := by
  simp [World.run, World.exec, World.init, World.setCell, World.collect, ObjectWrap.Wrap,
    ObjectWrap.new, ObjectWrap.persistent, Persistent.IsEmpty, Persistent.IsWeak, hs,
    ObjectWrap.MakeWeak, Persistent.ResetTo, Persistent.SetWeak, Persistent.MarkIndependent,
    ObjectWrap.Ref, ObjectWrap.Unref, Persistent.ClearWeak, Persistent.Reset, wrapInt32,
    ObjectWrap.WeakCallback, ObjectWrap.destructor]

/-- The collector step on a live object of a reachable world. -/
theorem World.exec_collect_of_run (host : Host) (ops : List Op) (w : World)
    (hrun : (World.init host).run ops = some w) (i : ObjId) (o : ObjectWrap)
    (hlive : w.heap i = .live o) :
    o.Consistent i ∧ w.exec (.collect i)
      = if o.persistent.IsWeak = true then some (.ok (w.setCell i .freed)) else none := by
  have hinv := World.Inv_run ops (World.init host) w (World.Inv_init host) hrun
  have hc := hinv i o hlive
  refine ⟨hc, ?_⟩
  simp only [World.exec, hlive]
  exact World.collect_of_consistent w i o hc

/-- A weak finaliser registered on a consistent object means that its counter is 0. -/
theorem ObjectWrap.refs_zero_of_IsWeak (i : ObjId) (o : ObjectWrap) (hc : o.Consistent i)
    (hw : o.persistent.IsWeak = true) : o._refs = 0 := by
  cases hv : o._handle.val with
  | none => simp [ObjectWrap.persistent, Persistent.IsWeak, hv] at hw
  | some n =>
    cases hn : n.weak with
    | none => simp [ObjectWrap.persistent, Persistent.IsWeak, hv, hn] at hw
    | some p => exact (hc.2 n p hv hn).2

/-! ## C2 -/

/-- C2. In the system whose steps are construction, Wrap, Ref, Unref, handle and the
collector firing (enabled only while the weak finaliser is registered), for every
world reachable from the initial world and every live object in it: a registered
finaliser means _refs = 0, so never _refs > 0; the firing is enabled exactly while
the finaliser is registered, hence never while _refs > 0; and every enabled firing
passes the assert _refs == 0 of WeakCallback and returns normally. In particular
after construct, Wrap, Ref the firing is not enabled, and after the matching Unref
it is enabled again. -/
theorem C2_no_finalization_while_pinned (host : Host) (ops : List Op) (w : World)
    (hrun : (World.init host).run ops = some w) (i : ObjId) (o : ObjectWrap)
    (hlive : w.heap i = .live o) :
    (o.persistent.IsWeak = true → o._refs = 0 ∧ ¬ (o._refs > 0))
      ∧ ((w.exec (.collect i)).isSome = true ↔ o.persistent.IsWeak = true)
      ∧ (o._refs > 0 → w.exec (.collect i) = none)
      ∧ (∀ r, w.exec (.collect i) = some r →
          o._refs = 0 ∧ o.WeakCallback.isOk = true ∧ r = .ok (w.setCell i .freed))
      ∧ (∀ j s, 0 < (host s).InternalFieldCount →
          ((World.init host).run [.construct j, .Wrap j s, .Ref j]).isSome = true
            ∧ (World.init host).run [.construct j, .Wrap j s, .Ref j, .collect j] = none
            ∧ ((World.init host).run
                [.construct j, .Wrap j s, .Ref j, .Unref j, .collect j]).isSome = true) := by
  obtain ⟨hc, hx⟩ := World.exec_collect_of_run host ops w hrun i o hlive
  have hz := ObjectWrap.refs_zero_of_IsWeak i o hc
  refine ⟨fun hw => ⟨hz hw, by rw [hz hw]; decide⟩, ?_, ?_, ?_, ?_⟩
  · rw [hx]
    cases hw : o.persistent.IsWeak <;> simp
  · intro hpos
    rw [hx]
    cases hw : o.persistent.IsWeak
    · simp
    · have := hz hw
      omega
  · intro r hr
    rw [hx] at hr
    cases hw : o.persistent.IsWeak
    · simp [hw] at hr
    · simp only [hw, if_true, Option.some.injEq] at hr
      refine ⟨hz hw, ?_, hr.symm⟩
      rw [ObjectWrap.WeakCallback_of_refs_zero o (hz hw)]
      rfl
  · intro j s hs
    exact World.run_attach_pin host j s hs

/-- C2, witness: after construct, Wrap, Ref the object is live with _refs = 1 and the
collector step is not enabled. -/
theorem C2_no_finalization_while_pinned_witness :
    ∃ w, (World.init Host.blank).run [.construct 0, .Wrap 0 5, .Ref 0] = some w
      ∧ w.heap 0 = .live { _refs := 1, _handle := { val := some ⟨5, none, true, false⟩ } }
      ∧ w.exec (.collect 0) = none :=
  ⟨_, rfl, rfl,
    (C2_no_finalization_while_pinned Host.blank [.construct 0, .Wrap 0 5, .Ref 0] _ rfl 0
      { _refs := 1, _handle := { val := some ⟨5, none, true, false⟩ } } rfl).2.2.1 (by decide)⟩

/-! ## The host object table along a run -/

/-- The collector step does not write the host object table. -/
theorem World.host_collect (w w1 : World) (i : ObjId) (o : ObjectWrap)
    (h : w.collect i o = some (.ok w1)) : w1.host = w.host := by
  unfold World.collect at h
  cases hv : o._handle.val with
  | none => rw [hv] at h; cases h
  | some n =>
    rw [hv] at h
    simp only at h
    cases hn : n.weak with
    | none => rw [hn] at h; cases h
    | some p =>
      rw [hn] at h
      simp only at h
      split at h
      · split at h
        · simp only [Option.some.injEq, Outcome.ok.injEq] at h
          subst h
          rfl
        · cases h
      · cases h

/-- Only Wrap writes the host object table: every other successful step leaves it as
it was. -/
theorem World.host_exec (w w1 : World) (op : Op) (hop : ∀ i s, op ≠ .Wrap i s)
    (h : w.exec op = some (.ok w1)) : w1.host = w.host := by
  cases op with
  | Wrap i s => exact absurd rfl (hop i s)
  | construct i =>
    simp only [World.exec] at h
    cases hh : w.heap i <;> rw [hh] at h <;> simp only [Option.some.injEq, Outcome.ok.injEq] at h
      <;> try cases h
    rfl
  | Ref i =>
    simp only [World.exec] at h
    cases hh : w.heap i with
    | unallocated => rw [hh] at h; cases h
    | freed => rw [hh] at h; cases h
    | live o =>
      rw [hh] at h
      simp only at h
      cases hr : o.Ref with
      | fatal x => rw [hr] at h; cases h
      | ok o1 =>
        rw [hr] at h
        simp only [Option.some.injEq, Outcome.ok.injEq] at h
        subst h
        rfl
  | Unref i =>
    simp only [World.exec] at h
    cases hh : w.heap i with
    | unallocated => rw [hh] at h; cases h
    | freed => rw [hh] at h; cases h
    | live o =>
      rw [hh] at h
      simp only at h
      cases hr : o.Unref i with
      | fatal x => rw [hr] at h; cases h
      | ok o1 =>
        rw [hr] at h
        simp only [Option.some.injEq, Outcome.ok.injEq] at h
        subst h
        rfl
  | handle i =>
    simp only [World.exec] at h
    cases hh : w.heap i with
    | unallocated => rw [hh] at h; cases h
    | freed => rw [hh] at h; cases h
    | live o =>
      rw [hh] at h
      simp only [Option.some.injEq, Outcome.ok.injEq] at h
      subst h
      rfl
  | collect i =>
    simp only [World.exec] at h
    cases hh : w.heap i with
    | unallocated => rw [hh] at h; cases h
    | freed => rw [hh] at h; cases h
    | live o =>
      rw [hh] at h
      exact World.host_collect w w1 i o h

/-- A run without Wrap steps leaves the host object table as it was. -/
theorem World.host_run : ∀ (ops : List Op) (w w1 : World),
    (∀ op ∈ ops, ∀ i s, op ≠ .Wrap i s) → w.run ops = some w1 → w1.host = w.host := by
  intro ops
  induction ops with
  | nil =>
    intro w w1 _ h
    simp only [World.run, Option.some.injEq] at h
    rw [h]
  | cons op ops ih =>
    intro w w1 hops h
    simp only [World.run] at h
    cases he : w.exec op with
    | none => rw [he] at h; cases h
    | some r =>
      cases r with
      | fatal x => rw [he] at h; cases h
      | ok w2 =>
        rw [he] at h
        rw [ih w2 w1 (fun op2 hm => hops op2 (List.mem_cons_of_mem _ hm)) h]
        exact World.host_exec w w2 op (hops op (List.mem_cons_self _ _)) he

theorem Call.toOp_ne_Wrap (this : ObjId) (cs : List Call) :
    ∀ op ∈ cs.map (Call.toOp this), ∀ i s, op ≠ .Wrap i s := by
  intro op hm i s
  obtain ⟨c, _, hc⟩ := List.mem_map.mp hm
  subst hc
  cases c <;> simp [Call.toOp]

/-- Unwrap on the host object that a successful Wrap has written returns the address
of the wrapped object. -/
theorem Unwrap_after_Wrap (this : ObjId) (o o1 : ObjectWrap) (host host1 : Host) (s : SlotId)
    (h : o.Wrap this host s = .ok (o1, host1)) : Unwrap host1 (some s) = some (some this) := by
  unfold ObjectWrap.Wrap at h
  split at h
  · cases h
  · split at h
    · cases h
    · rename_i hf
      injection h with h
      injection h with h1 h2
      subst h2
      simp only [not_not] at hf
      have hlen : 0 < (host s).fields.length := hf
      simp only [Unwrap, Host.store, HostObject.InternalFieldCount,
        HostObject.SetAlignedPointerInInternalField, HostObject.GetAlignedPointerFromInternalField,
        if_true, List.length_set, not_lt, Nat.le_zero, List.getD_eq_getElem?_getD]
      have hne : ¬ (host s).fields.length = 0 := by omega
      simp [hne, List.getElem?_set, hlen]

/-- Wrap returns normally on an empty handle and a host object with an internal
field. -/
theorem ObjectWrap.Wrap_of_unattached (this : ObjId) (o : ObjectWrap) (host : Host) (s : SlotId)
    (he : o.persistent.IsEmpty = true) (hs : 0 < (host s).InternalFieldCount) :
    o.Wrap this host s
      = .ok (ObjectWrap.MakeWeak this { o with _handle := o.persistent.ResetTo s },
          host.store s ((host s).SetAlignedPointerInInternalField 0 (some this))) := by
  simp [ObjectWrap.Wrap, he, hs]

/-! ## C3 -/

/-- C3. For every live unattached object at address this and every host object s with
at least one internal field, Wrap succeeds, Unwrap on s then returns the address
this, and Unwrap on s keeps returning this after every further sequence of
successful Ref, Unref and handle calls on the object. -/
theorem C3_resolve_after_attach (w : World) (this : ObjId) (s : SlotId) (o : ObjectWrap)
    (hlive : w.heap this = .live o) (he : o.persistent.IsEmpty = true)
    (hs : 0 < (w.host s).InternalFieldCount) :
    ∃ w1, w.exec (.Wrap this s) = some (.ok w1)
      ∧ Unwrap w1.host (some s) = some (some this)
      ∧ ∀ (cs : List Call) (w2 : World), w1.run (cs.map (Call.toOp this)) = some w2 →
          Unwrap w2.host (some s) = some (some this) := by
  have hW := ObjectWrap.Wrap_of_unattached this o w.host s he hs
  have hx : w.exec (.Wrap this s) = some (.ok
      { heap := (w.setCell this (.live
          (ObjectWrap.MakeWeak this { o with _handle := o.persistent.ResetTo s }))).heap,
        host := w.host.store s ((w.host s).SetAlignedPointerInInternalField 0 (some this)) }) := by
    simp only [World.exec, hlive, hW]
  refine ⟨_, hx, ?_, ?_⟩
  · exact Unwrap_after_Wrap this o _ w.host _ s hW
  · intro cs w2 hrun
    rw [World.host_run _ _ w2 (Call.toOp_ne_Wrap this cs) hrun]
    exact Unwrap_after_Wrap this o _ w.host _ s hW

/-- C3, witness: a freshly constructed object at address 3 and the host object 7. -/
theorem C3_resolve_after_attach_witness :
    ((World.init Host.blank).setCell 3 (.live ObjectWrap.new)).heap 3 = .live ObjectWrap.new
      ∧ ObjectWrap.new.persistent.IsEmpty = true
      ∧ 0 < (((World.init Host.blank).setCell 3 (.live ObjectWrap.new)).host 7).InternalFieldCount
      ∧ ∃ w1, ((World.init Host.blank).setCell 3 (.live ObjectWrap.new)).exec (.Wrap 3 7)
            = some (.ok w1)
          ∧ Unwrap w1.host (some 7) = some (some 3)
          ∧ ∀ (cs : List Call) (w2 : World), w1.run (cs.map (Call.toOp 3)) = some w2 →
              Unwrap w2.host (some 7) = some (some 3) :=
  ⟨rfl, rfl, by decide,
    C3_resolve_after_attach ((World.init Host.blank).setCell 3 (.live ObjectWrap.new)) 3 7
      ObjectWrap.new rfl rfl (by decide)⟩

/-! ## C4 -/

/-- C4, counterexample. Unwrap on a host object that has an internal field and was
never passed to Wrap returns a value (the null pointer held by the field) and is not
rejected; and after construct, Wrap, collect the object at address 0 is destroyed
while Unwrap on its host object still returns the address 0: WeakCallback does not
clear the back-pointer. -/
theorem C4_counterexample :
    Unwrap Host.blank (some 5) = some none
      ∧ ((World.init Host.blank).run [.construct 0, .Wrap 0 5, .collect 0]).map
          (fun w => (w.heap 0, Unwrap w.host (some 5))) = some (Cell.freed, some (some 0)) := by
  decide

/-- C4, amended. Unwrap is rejected exactly when the handle is empty or the host
object has no internal field; on every host object with an internal field it
returns the content of internal field 0, whether or not the object was ever passed
to Wrap; and the collector firing (WeakCallback) leaves the host object table as it
was, so Unwrap after finalization returns what it returned before. -/
theorem C4_unwrap_checks_handle_and_fields (host : Host) (handle : Local) :
    (Unwrap host handle = none ↔
        handle = none ∨ ∃ s, handle = some s ∧ (host s).InternalFieldCount = 0)
      ∧ (∀ s, handle = some s → 0 < (host s).InternalFieldCount →
          Unwrap host handle = some ((host s).GetAlignedPointerFromInternalField 0))
      ∧ (∀ (w w1 : World) (i : ObjId), w.host = host → w.exec (.collect i) = some (.ok w1) →
          Unwrap w1.host handle = Unwrap host handle) := by
  refine ⟨?_, ?_, ?_⟩
  · cases handle with
    | none => simp [Unwrap]
    | some s =>
      by_cases hc : (host s).InternalFieldCount = 0
      · simp [Unwrap, hc]
      · have : 0 < (host s).InternalFieldCount := Nat.pos_of_ne_zero hc
        simp [Unwrap, hc]
  · intro s hh hs
    subst hh
    simp [Unwrap, hs]
  · intro w w1 i hw hx
    rw [World.host_exec w w1 (.collect i) (fun _ _ h => by cases h) hx, hw]

/-! ## Freed objects stay freed -/

/-- No step is enabled on a freed address, and a step on another address leaves a
freed address freed. -/
theorem World.exec_of_freed (w w1 : World) (op : Op) (i : ObjId) (hf : w.heap i = .freed)
    (h : w.exec op = some (.ok w1)) : op.target ≠ i ∧ w1.heap i = .freed := by
  have key : ∀ j, (w.heap j = .freed → False) → j ≠ i := by
    intro j hj hji
    subst hji
    exact hj hf
  cases op with
  | construct j =>
    simp only [World.exec] at h
    cases hh : w.heap j with
    | freed => rw [hh] at h; cases h
    | live o => rw [hh] at h; cases h
    | unallocated =>
      rw [hh] at h
      simp only [Option.some.injEq, Outcome.ok.injEq] at h
      subst h
      have hne : j ≠ i := key j (fun hj => by rw [hh] at hj; cases hj)
      exact ⟨hne, by rw [World.heap_setCell_other w j i _ (Ne.symm hne)]; exact hf⟩
  | Wrap j s =>
    simp only [World.exec] at h
    cases hh : w.heap j with
    | unallocated => rw [hh] at h; cases h
    | freed => rw [hh] at h; cases h
    | live o =>
      rw [hh] at h
      simp only at h
      have hne : j ≠ i := key j (fun hj => by rw [hh] at hj; cases hj)
      cases hr : o.Wrap j w.host s with
      | fatal x => rw [hr] at h; cases h
      | ok x =>
        rw [hr] at h
        simp only [Option.some.injEq, Outcome.ok.injEq] at h
        subst h
        exact ⟨hne, by
          show (w.setCell j _).heap i = _
          rw [World.heap_setCell_other w j i _ (Ne.symm hne)]; exact hf⟩
  | Ref j =>
    simp only [World.exec] at h
    cases hh : w.heap j with
    | unallocated => rw [hh] at h; cases h
    | freed => rw [hh] at h; cases h
    | live o =>
      rw [hh] at h
      simp only at h
      have hne : j ≠ i := key j (fun hj => by rw [hh] at hj; cases hj)
      cases hr : o.Ref with
      | fatal x => rw [hr] at h; cases h
      | ok o1 =>
        rw [hr] at h
        simp only [Option.some.injEq, Outcome.ok.injEq] at h
        subst h
        exact ⟨hne, by rw [World.heap_setCell_other w j i _ (Ne.symm hne)]; exact hf⟩
  | Unref j =>
    simp only [World.exec] at h
    cases hh : w.heap j with
    | unallocated => rw [hh] at h; cases h
    | freed => rw [hh] at h; cases h
    | live o =>
      rw [hh] at h
      simp only at h
      have hne : j ≠ i := key j (fun hj => by rw [hh] at hj; cases hj)
      cases hr : o.Unref j with
      | fatal x => rw [hr] at h; cases h
      | ok o1 =>
        rw [hr] at h
        simp only [Option.some.injEq, Outcome.ok.injEq] at h
        subst h
        exact ⟨hne, by rw [World.heap_setCell_other w j i _ (Ne.symm hne)]; exact hf⟩
  | handle j =>
    simp only [World.exec] at h
    cases hh : w.heap j with
    | unallocated => rw [hh] at h; cases h
    | freed => rw [hh] at h; cases h
    | live o =>
      rw [hh] at h
      simp only [Option.some.injEq, Outcome.ok.injEq] at h
      subst h
      exact ⟨key j (fun hj => by rw [hh] at hj; cases hj), hf⟩
  | collect j =>
    simp only [World.exec] at h
    cases hh : w.heap j with
    | unallocated => rw [hh] at h; cases h
    | freed => rw [hh] at h; cases h
    | live o =>
      rw [hh] at h
      simp only at h
      have hne : j ≠ i := key j (fun hj => by rw [hh] at hj; cases hj)
      refine ⟨hne, ?_⟩
      unfold World.collect at h
      cases hv : o._handle.val with
      | none => rw [hv] at h; cases h
      | some n =>
        rw [hv] at h
        simp only at h
        cases hn : n.weak with
        | none => rw [hn] at h; cases h
        | some p =>
          rw [hn] at h
          simp only at h
          split at h
          · split at h
            · simp only [Option.some.injEq, Outcome.ok.injEq] at h
              subst h
              by_cases hp : i = p
              · subst hp
                exact World.heap_setCell_same _ _ _
              · rw [World.heap_setCell_other _ p i _ hp,
                  World.heap_setCell_other w j i _ (Ne.symm hne)]
                exact hf
            · cases h
          · cases h

/-- Along a run that starts with the address i freed, no step is about i and i stays
freed. -/
theorem World.run_of_freed (i : ObjId) : ∀ (ops : List Op) (w w1 : World),
    w.heap i = .freed → w.run ops = some w1 →
      w1.heap i = .freed ∧ ∀ op ∈ ops, op.target ≠ i := by
  intro ops
  induction ops with
  | nil =>
    intro w w1 hf h
    simp only [World.run, Option.some.injEq] at h
    subst h
    exact ⟨hf, fun op hm => by cases hm⟩
  | cons op ops ih =>
    intro w w1 hf h
    simp only [World.run] at h
    cases he : w.exec op with
    | none => rw [he] at h; cases h
    | some r =>
      cases r with
      | fatal x => rw [he] at h; cases h
      | ok w2 =>
        rw [he] at h
        obtain ⟨hne, hf2⟩ := World.exec_of_freed w w2 op i hf he
        obtain ⟨hf1, hall⟩ := ih w2 w1 hf2 h
        refine ⟨hf1, ?_⟩
        intro op2 hm
        rcases List.mem_cons.mp hm with hm | hm
        · rw [hm]; exact hne
        · exact hall op2 hm

/-- A successful collector step on a live object of a consistent world frees it. -/
theorem World.exec_collect_frees (w w1 : World) (i : ObjId) (hw : w.Inv)
    (h : w.exec (.collect i) = some (.ok w1)) : w1.heap i = .freed := by
  simp only [World.exec] at h
  cases hh : w.heap i with
  | unallocated => rw [hh] at h; cases h
  | freed => rw [hh] at h; cases h
  | live o =>
    rw [hh] at h
    simp only at h
    rw [World.collect_of_consistent w i o (hw i o hh)] at h
    split at h
    · simp only [Option.some.injEq, Outcome.ok.injEq] at h
      subst h
      exact World.heap_setCell_same _ _ _
    · cases h

/-- A run from a consistent world holds at most one collector step for each address,
and such a step leaves the address freed for the rest of the run. -/
theorem World.run_collect_once (i : ObjId) : ∀ (ops : List Op) (w w1 : World),
    w.Inv → w.run ops = some w1 →
      ops.count (.collect i) ≤ 1 ∧ (Op.collect i ∈ ops → w1.heap i = .freed) := by
  intro ops
  induction ops with
  | nil =>
    intro w w1 _ _
    exact ⟨by simp, fun hm => by cases hm⟩
  | cons op ops ih =>
    intro w w1 hw h
    have h0 := h
    simp only [World.run] at h
    cases he : w.exec op with
    | none => rw [he] at h; cases h
    | some r =>
      cases r with
      | fatal x => rw [he] at h; cases h
      | ok w2 =>
        rw [he] at h
        by_cases hop : op = .collect i
        · subst hop
          have hf2 := World.exec_collect_frees w w2 i hw he
          obtain ⟨hf1, hall⟩ := World.run_of_freed i ops w2 w1 hf2 h
          have hnot : Op.collect i ∉ ops := fun hm => hall _ hm rfl
          refine ⟨?_, fun _ => hf1⟩
          rw [List.count_cons_self, List.count_eq_zero_of_not_mem hnot]
        · obtain ⟨hc, hfr⟩ := ih w2 w1 (World.Inv_exec w w2 op hw he) h
          refine ⟨?_, ?_⟩
          · rw [List.count_cons_of_ne (Ne.symm hop)]
            exact hc
          · intro hm
            rcases List.mem_cons.mp hm with hm | hm
            · exact absurd hm.symm hop
            · exact hfr hm

/-! ## C5 -/

/-- C5. WeakCallback, when it returns, leaves the handle of the object empty with no
weak finaliser registered. In every run of the system from the initial world the
collector fires at most once for each object, and at most once altogether when the
run is about one object only; once it has fired the object is freed,
and along every continuation of the run no step about that object (Wrap, Ref,
Unref, handle, collector firing, construction) is enabled again. -/
theorem C5_finalization_at_most_once (host : Host) (ops : List Op) (w : World)
    (hrun : (World.init host).run ops = some w) (i : ObjId) :
    (∀ wrap wrap1 : ObjectWrap, wrap.WeakCallback = .ok wrap1 →
        wrap1.persistent.IsEmpty = true ∧ wrap1.persistent.IsWeak = false)
      ∧ ops.count (.collect i) ≤ 1
      ∧ ((∀ op ∈ ops, op.target = i) → ops.countP Op.isCollect ≤ 1)
      ∧ (Op.collect i ∈ ops →
          w.heap i = .freed
            ∧ (∀ op : Op, op.target = i → w.exec op = none)
            ∧ ∀ (ops2 : List Op) (w2 : World), w.run ops2 = some w2 →
                (∀ op ∈ ops2, op.target ≠ i) ∧ w2.heap i = .freed
                  ∧ w2.exec (.collect i) = none) := by
  have hcons := World.run_collect_once i ops (World.init host) w (World.Inv_init host) hrun
  have hnone : ∀ (v : World), v.heap i = .freed → ∀ op : Op, op.target = i → v.exec op = none := by
    intro v hv op hop
    cases op <;> simp only [Op.target] at hop <;> subst hop <;> simp [World.exec, hv]
  refine ⟨?_, hcons.1, ?_, ?_⟩
  · intro wrap wrap1 h
    by_cases hr : wrap._refs = 0
    · rw [ObjectWrap.WeakCallback_of_refs_zero wrap hr] at h
      injection h with h
      subst h
      exact ⟨rfl, rfl⟩
    · rw [ObjectWrap.WeakCallback_of_refs_ne_zero wrap hr] at h
      cases h
  · intro hall
    have heq : ops.countP Op.isCollect = ops.count (.collect i) := by
      rw [List.count]
      apply List.countP_congr
      intro op hm
      have ht := hall op hm
      cases op <;> simp only [Op.target] at ht <;> subst ht <;> simp [Op.isCollect]
    rw [heq]
    exact hcons.1
  · intro hm
    have hf := hcons.2 hm
    refine ⟨hf, hnone w hf, ?_⟩
    intro ops2 w2 h2
    obtain ⟨hf2, hall⟩ := World.run_of_freed i ops2 w w2 hf h2
    exact ⟨hall, hf2, hnone w2 hf2 _ rfl⟩

/-- C5, witness: construct, Wrap, collect on the object at address 0; every further
collector firing, Wrap, Ref or Unref on it is not enabled. -/
theorem C5_finalization_at_most_once_witness :
    ∃ w, (World.init Host.blank).run [.construct 0, .Wrap 0 5, .collect 0] = some w
      ∧ [Op.construct 0, Op.Wrap 0 5, Op.collect 0].count (.collect 0) ≤ 1
      ∧ w.heap 0 = .freed
      ∧ w.exec (.collect 0) = none ∧ w.exec (.Wrap 0 5) = none
      ∧ w.exec (.Ref 0) = none ∧ w.exec (.Unref 0) = none :=
  ⟨_, rfl,
    (C5_finalization_at_most_once Host.blank [.construct 0, .Wrap 0 5, .collect 0] _ rfl 0).2.1,
    rfl, rfl, rfl, rfl, rfl⟩


/-! ## C6 -/

/-- Unref fails exactly when the handle is empty, or weak, or the counter is not
positive. -/
theorem ObjectWrap.Unref_isFatal_iff (this : ObjId) (o : ObjectWrap) :
    (o.Unref this).isFatal = true
      ↔ (o.persistent.IsEmpty = true ∨ o.persistent.IsWeak = true ∨ o._refs ≤ 0) := by
  constructor
  · intro h
    by_contra hcon
    simp only [not_or, Bool.not_eq_true, not_le] at hcon
    obtain ⟨he, hw, hr⟩ := hcon
    rw [ObjectWrap.Unref_of_pinned this o he hw hr] at h
    split at h <;> cases h
  · intro h
    rw [ObjectWrap.Unref_of_not_pinned this o h]
    rfl

/-- A failed Unref carries the state it was called on. -/
theorem ObjectWrap.Unref_fatal_state (this : ObjId) (o s : ObjectWrap)
    (h : o.Unref this = .fatal s) : s = o := by
  have hf : (o.Unref this).isFatal = true := by rw [h]; rfl
  rw [ObjectWrap.Unref_of_not_pinned this o ((ObjectWrap.Unref_isFatal_iff this o).mp hf)] at h
  injection h with h
  exact h.symm

/-- C6, counterexample. The state reached by Wrap on a fresh object and 2^31 calls to
Ref is attached, not Weak, and has _refs different from 0 (the int has wrapped to
-2^31); Unref fails on it all the same, at the assert _refs > 0. -/
theorem C6_counterexample :
    ∃ o1 host1 o, ObjectWrap.new.Wrap 0 Host.blank 0 = .ok (o1, host1)
      ∧ o1.calls 0 (List.replicate 2147483648 Call.Ref) = .ok o
      ∧ (o.Unref 0).isFatal = true
      ∧ ¬ (o.persistent.IsEmpty = true ∨ o.lifetime_mode = Mode.Weak ∨ o._refs = 0) := by
  refine ⟨_, _, _, rfl, ObjectWrap.calls_replicate_Ref 0 2147483647 _ rfl, ?_, ?_⟩
  · simp only [wrapInt32]
    decide
  · simp only [wrapInt32]
    decide

/-- C6, amended. Unref fails if and only if the handle is empty, or the object is in
Weak mode, or _refs is not positive (0 or negative); whenever it fails the state
at the failed assert (_refs, handle, weak registration) is the state before the
call. On states with a non-negative counter this is the condition _refs = 0. The
state that WeakCallback leaves has an empty handle, so Unref fails on it. -/
theorem C6_unpin_fails_iff (this : ObjId) (o : ObjectWrap) :
    ((o.Unref this).isFatal = true
        ↔ (o.persistent.IsEmpty = true ∨ o.lifetime_mode = Mode.Weak ∨ o._refs ≤ 0))
      ∧ (∀ s, o.Unref this = .fatal s → s = o)
      ∧ (0 ≤ o._refs →
          ((o.Unref this).isFatal = true
            ↔ (o.persistent.IsEmpty = true ∨ o.lifetime_mode = Mode.Weak ∨ o._refs = 0)))
      ∧ (∀ wrap : ObjectWrap, wrap.WeakCallback = .ok o → o.Unref this = .fatal o) := by
  have hW := (ObjectWrap.lifetime_mode_cases o).2.1
  refine ⟨?_, ObjectWrap.Unref_fatal_state this o, ?_, ?_⟩
  · rw [hW]
    exact ObjectWrap.Unref_isFatal_iff this o
  · intro h0
    rw [hW, ObjectWrap.Unref_isFatal_iff this o]
    constructor
    · rintro (h | h | h)
      · exact Or.inl h
      · exact Or.inr (Or.inl h)
      · exact Or.inr (Or.inr (by omega))
    · rintro (h | h | h)
      · exact Or.inl h
      · exact Or.inr (Or.inl h)
      · exact Or.inr (Or.inr (by omega))
  · intro wrap h
    apply ObjectWrap.Unref_of_not_pinned
    left
    by_cases hr : wrap._refs = 0
    · rw [ObjectWrap.WeakCallback_of_refs_zero wrap hr] at h
      injection h with h
      subst h
      rfl
    · rw [ObjectWrap.WeakCallback_of_refs_ne_zero wrap hr] at h
      cases h

/-! ## C7 -/

/-- C7. Ref fails if and only if the handle is empty, and the state at the failed
assert is the state before the call; this is the case on a freshly constructed
object and on the state that WeakCallback leaves. On every attached state, Weak or
Strong, Ref returns normally. -/
theorem C7_pin_fails_iff (o : ObjectWrap) :
    (o.Ref.isFatal = true ↔ o.persistent.IsEmpty = true)
      ∧ (o.Ref.isFatal = true ↔ o.lifetime_mode = Mode.Unattached)
      ∧ (∀ s, o.Ref = .fatal s → s = o)
      ∧ (o.lifetime_mode = Mode.Weak ∨ o.lifetime_mode = Mode.Strong → o.Ref.isOk = true)
      ∧ ObjectWrap.new.Ref = .fatal ObjectWrap.new
      ∧ (∀ wrap : ObjectWrap, wrap.WeakCallback = .ok o → o.Ref = .fatal o) := by
  have hiff : o.Ref.isFatal = true ↔ o.persistent.IsEmpty = true := by
    cases he : o.persistent.IsEmpty
    · rw [ObjectWrap.Ref_of_attached o he]
      simp [Outcome.isFatal]
    · rw [ObjectWrap.Ref_of_empty o he]
      simp [Outcome.isFatal]
  obtain ⟨hS, hW, hU⟩ := ObjectWrap.lifetime_mode_cases o
  refine ⟨hiff, by rw [hU]; exact hiff, ?_, ?_, rfl, ?_⟩
  · intro s h
    have hf : o.Ref.isFatal = true := by rw [h]; rfl
    rw [ObjectWrap.Ref_of_empty o (hiff.mp hf)] at h
    injection h with h
    exact h.symm
  · intro hm
    have he : o.persistent.IsEmpty = false := by
      cases he : o.persistent.IsEmpty
      · rfl
      · have hu := hU.mpr he
        rcases hm with hm | hm <;> rw [hu] at hm <;> cases hm
    rw [ObjectWrap.Ref_of_attached o he]
    rfl
  · intro wrap h
    apply ObjectWrap.Ref_of_empty
    by_cases hr : wrap._refs = 0
    · rw [ObjectWrap.WeakCallback_of_refs_zero wrap hr] at h
      injection h with h
      subst h
      rfl
    · rw [ObjectWrap.WeakCallback_of_refs_ne_zero wrap hr] at h
      cases h

/-! ## C8 -/

/-- Wrap fails, leaving object and host object table as they were, when the handle is
not empty or the host object has no internal field. -/
theorem ObjectWrap.Wrap_of_not_ready (this : ObjId) (o : ObjectWrap) (host : Host) (s : SlotId)
    (h : o.persistent.IsEmpty = false ∨ (host s).InternalFieldCount = 0) :
    o.Wrap this host s = .fatal (o, host) := by
  unfold ObjectWrap.Wrap
  rcases h with h | h
  · simp [h]
  · by_cases he : o.persistent.IsEmpty = true <;> simp [he, h]

/-- One successful call keeps the handle non-empty and bound to the same host
object. -/
theorem ObjectWrap.call_handle (this : ObjId) (c : Call) (o o1 : ObjectWrap)
    (he : o.persistent.IsEmpty = false) (h : o.call this c = .ok o1) :
    o1.persistent.IsEmpty = false ∧ o1.handle = o.handle := by
  have hm : ∀ p : Persistent, Local.New ((p.SetWeak this).MarkIndependent) = Local.New p := by
    intro p
    cases p with
    | mk v => cases v <;> rfl
  have hcw : ∀ p : Persistent, Local.New p.ClearWeak = Local.New p := by
    intro p
    cases p with
    | mk v => cases v <;> rfl
  cases c with
  | Ref =>
    simp only [ObjectWrap.call, ObjectWrap.Ref_of_attached o he] at h
    injection h with h
    subst h
    exact ⟨by simpa [ObjectWrap.persistent] using he, hcw _⟩
  | Unref =>
    simp only [ObjectWrap.call] at h
    unfold ObjectWrap.Unref at h
    split at h
    · cases h
    · split at h
      · cases h
      · split at h
        · cases h
        · simp only at h
          split at h
          · injection h with h
            subst h
            exact ⟨by simpa [ObjectWrap.MakeWeak, ObjectWrap.persistent] using he, hm _⟩
          · injection h with h
            subst h
            exact ⟨he, rfl⟩
  | handle =>
    simp only [ObjectWrap.call] at h
    injection h with h
    subst h
    exact ⟨he, rfl⟩

/-- A successful sequence of calls keeps the handle non-empty and bound to the same
host object. -/
theorem ObjectWrap.calls_handle (this : ObjId) : ∀ (cs : List Call) (o o1 : ObjectWrap),
    o.persistent.IsEmpty = false → o.calls this cs = .ok o1 →
      o1.persistent.IsEmpty = false ∧ o1.handle = o.handle := by
  intro cs
  induction cs with
  | nil =>
    intro o o1 he h
    simp only [ObjectWrap.calls] at h
    injection h with h
    subst h
    exact ⟨he, rfl⟩
  | cons c cs ih =>
    intro o o1 he h
    simp only [ObjectWrap.calls] at h
    cases hc : o.call this c with
    | fatal s => rw [hc] at h; cases h
    | ok o2 =>
      rw [hc] at h
      obtain ⟨he2, hh2⟩ := ObjectWrap.call_handle this c o o2 he hc
      obtain ⟨he1, hh1⟩ := ih o2 o1 he2 h
      exact ⟨he1, hh1.trans hh2⟩

/-- C8. Wrap returns normally if and only if the object is Unattached (empty handle)
and the host object has at least one internal field; a failed Wrap leaves the object
and the host object table as they were. After a successful Wrap, and after any
further successful Ref, Unref and handle calls, the handle is still bound to the
host object of that Wrap and every other Wrap on the object, whatever host object
is passed, fails and changes nothing: the handle is set once. -/
theorem C8_attach_succeeds_iff (this : ObjId) (o : ObjectWrap) (host : Host) (s : SlotId) :
    ((o.Wrap this host s).isOk = true
        ↔ (o.lifetime_mode = Mode.Unattached ∧ 0 < (host s).InternalFieldCount))
      ∧ (∀ x, o.Wrap this host s = .fatal x → x = (o, host))
      ∧ (o.lifetime_mode = Mode.Weak ∨ o.lifetime_mode = Mode.Strong →
          o.Wrap this host s = .fatal (o, host))
      ∧ (∀ (o1 : ObjectWrap) (host1 : Host), o.Wrap this host s = .ok (o1, host1) →
          ∀ (cs : List Call) (o2 : ObjectWrap), o1.calls this cs = .ok o2 →
            o2.handle = some s
              ∧ ∀ (host2 : Host) (s2 : SlotId), o2.Wrap this host2 s2 = .fatal (o2, host2)) := by
  obtain ⟨hS, hW, hU⟩ := ObjectWrap.lifetime_mode_cases o
  have hiff : (o.Wrap this host s).isOk = true
      ↔ (o.persistent.IsEmpty = true ∧ 0 < (host s).InternalFieldCount) := by
    constructor
    · intro h
      by_contra hcon
      have hnr : o.persistent.IsEmpty = false ∨ (host s).InternalFieldCount = 0 := by
        by_cases he : o.persistent.IsEmpty = true
        · right
          by_contra hz
          exact hcon ⟨he, Nat.pos_of_ne_zero hz⟩
        · left
          simpa using he
      rw [ObjectWrap.Wrap_of_not_ready this o host s hnr] at h
      cases h
    · rintro ⟨he, hs⟩
      rw [ObjectWrap.Wrap_of_unattached this o host s he hs]
      rfl
  refine ⟨by rw [hU]; exact hiff, ?_, ?_, ?_⟩
  · intro x h
    have hnot : ¬ (o.Wrap this host s).isOk = true := by rw [h]; simp [Outcome.isOk]
    have hnr : o.persistent.IsEmpty = false ∨ (host s).InternalFieldCount = 0 := by
      by_cases he : o.persistent.IsEmpty = true
      · right
        by_contra hz
        exact hnot (hiff.mpr ⟨he, Nat.pos_of_ne_zero hz⟩)
      · left
        simpa using he
    rw [ObjectWrap.Wrap_of_not_ready this o host s hnr] at h
    injection h with h
    exact h.symm
  · intro hm
    apply ObjectWrap.Wrap_of_not_ready
    left
    cases he : o.persistent.IsEmpty
    · rfl
    · have hu := hU.mpr he
      rcases hm with hm | hm <;> rw [hu] at hm <;> cases hm
  · intro o1 host1 hwrap cs o2 hcalls
    have hok : (o.Wrap this host s).isOk = true := by rw [hwrap]; rfl
    obtain ⟨he, hs⟩ := hiff.mp hok
    rw [ObjectWrap.Wrap_of_unattached this o host s he hs] at hwrap
    injection hwrap with hwrap
    injection hwrap with h1 h2
    subst h1
    obtain ⟨he2, hh2⟩ := ObjectWrap.calls_handle this cs
      (ObjectWrap.MakeWeak this { o with _handle := o.persistent.ResetTo s }) o2 rfl hcalls
    exact ⟨hh2.trans rfl, fun host2 s2 => ObjectWrap.Wrap_of_not_ready this o2 host2 s2 (Or.inl he2)⟩

/-! ## C9 -/

/-- C9. A freshly constructed object has _refs = 0 and an empty handle (Unattached).
Wrap on it with a host object s that has an internal field returns normally and
yields: the handle bound to s, internal field 0 of s holding the address of the
object (so Unwrap on s returns it), every other host object as before, mode Weak
with the weak finaliser registered with the object as its parameter, and _refs
still 0. -/
theorem C9_fresh_then_attach (this : ObjId) (host : Host) (s : SlotId)
    (hs : 0 < (host s).InternalFieldCount) :
    ObjectWrap.new._refs = 0
      ∧ ObjectWrap.new.persistent.IsEmpty = true
      ∧ ObjectWrap.new.lifetime_mode = Mode.Unattached
      ∧ ∃ o1 host1, ObjectWrap.new.Wrap this host s = .ok (o1, host1)
          ∧ o1.handle = some s
          ∧ (host1 s).GetAlignedPointerFromInternalField 0 = some this
          ∧ Unwrap host1 (some s) = some (some this)
          ∧ (∀ t, t ≠ s → host1 t = host t)
          ∧ o1.lifetime_mode = Mode.Weak
          ∧ o1.persistent.IsWeak = true
          ∧ o1._handle.val.bind (fun n => n.weak) = some this
          ∧ o1._refs = 0 := by
  refine ⟨rfl, rfl, rfl, _, _, ObjectWrap.Wrap_of_unattached this ObjectWrap.new host s rfl hs,
    rfl, ?_, ?_, ?_, rfl, rfl, rfl, rfl⟩
  · have h := Unwrap_after_Wrap this ObjectWrap.new _ host _ s
      (ObjectWrap.Wrap_of_unattached this ObjectWrap.new host s rfl hs)
    simp only [Unwrap] at h
    split at h
    · cases h
    · injection h
  · exact Unwrap_after_Wrap this ObjectWrap.new _ host _ s
      (ObjectWrap.Wrap_of_unattached this ObjectWrap.new host s rfl hs)
  · intro t ht
    simp [Host.store, ht]

/-- C9, witness: the object at address 4 and the host object 9 with one internal
field. -/
theorem C9_fresh_then_attach_witness :
    0 < (Host.blank 9).InternalFieldCount
      ∧ ObjectWrap.new.Wrap 4 Host.blank 9
          = .ok ({ _refs := 0, _handle := { val := some ⟨9, some 4, true, false⟩ } },
              Host.blank.store 9 { fields := [some 4] })
      ∧ ∃ o1 host1, ObjectWrap.new.Wrap 4 Host.blank 9 = .ok (o1, host1)
          ∧ o1.handle = some 9
          ∧ (host1 9).GetAlignedPointerFromInternalField 0 = some 4
          ∧ Unwrap host1 (some 9) = some (some 4)
          ∧ (∀ t, t ≠ 9 → host1 t = Host.blank t)
          ∧ o1.lifetime_mode = Mode.Weak
          ∧ o1.persistent.IsWeak = true
          ∧ o1._handle.val.bind (fun n => n.weak) = some 4
          ∧ o1._refs = 0 :=
  ⟨by decide, rfl, (C9_fresh_then_attach 4 Host.blank 9 (by decide)).2.2.2⟩

/-! ## C10 -/

/-- C10, counterexample. The attached state reached by Wrap on a fresh object and
2^31 - 1 calls to Ref has _refs = 2147483647, the largest int; Ref returns normally
on it and the counter of the result is not 2147483647 + 1. -/
theorem C10_counterexample :
    ∃ o1 host1 o o2, ObjectWrap.new.Wrap 0 Host.blank 0 = .ok (o1, host1)
      ∧ o1.calls 0 (List.replicate 2147483647 Call.Ref) = .ok o
      ∧ o.persistent.IsEmpty = false
      ∧ o._refs = 2147483647
      ∧ o.Ref = .ok o2
      ∧ o2._refs ≠ o._refs + 1 := by
  refine ⟨_, _, _, _, rfl, ObjectWrap.calls_replicate_Ref 0 2147483646 _ rfl, rfl, ?_,
    ObjectWrap.Ref_of_attached _ rfl, ?_⟩
  · simp only [wrapInt32]
    decide
  · simp only [wrapInt32]
    decide

/-- C10, amended. For every attached state whose counter _refs = n is an int below
the largest int 2^31 - 1, Ref returns normally and yields _refs = n + 1 and mode
Strong (no weak finaliser registered), with the handle bound to the same host
object; when the state was already Strong the handle is unchanged, so that _refs is
the only component of the state that differs. -/
theorem C10_pin_effect (o : ObjectWrap) (he : o.persistent.IsEmpty = false)
    (hlo : -2147483648 ≤ o._refs) (hhi : o._refs < 2147483647) :
    ∃ o1, o.Ref = .ok o1
      ∧ o1._refs = o._refs + 1
      ∧ o1.lifetime_mode = Mode.Strong
      ∧ o1.persistent.IsWeak = false
      ∧ o1.handle = o.handle
      ∧ (o.lifetime_mode = Mode.Strong → o1._handle = o._handle) := by
  refine ⟨_, ObjectWrap.Ref_of_attached o he, wrapInt32_of_range _ (by omega) (by omega),
    ?_, ?_, ?_, ?_⟩
  · rw [(ObjectWrap.lifetime_mode_cases _).1]
    simp [ObjectWrap.persistent] at he ⊢
    exact he
  · simp [ObjectWrap.persistent]
  · simp only [ObjectWrap.handle, ObjectWrap.persistent]
    cases hv : o._handle with
    | mk v => cases v <;> rfl
  · intro hS
    obtain ⟨_, hw⟩ := (ObjectWrap.lifetime_mode_cases o).1.mp hS
    simp only [ObjectWrap.persistent] at hw ⊢
    cases hv : o._handle with
    | mk v =>
      cases v with
      | none => rfl
      | some n =>
        cases hn : n.weak with
        | none =>
          simp only [Persistent.ClearWeak, Option.map_some', Persistent.mk.injEq,
            Option.some.injEq]
          cases n
          simp only at hn
          subst hn
          rfl
        | some p => simp [hv, Persistent.IsWeak, hn] at hw

/-- C10, witness: Ref on a Weak state with _refs = 0 and on a Strong state with
_refs = 2. -/
theorem C10_pin_effect_witness :
    (∃ o1, ObjectWrap.Ref { _refs := 0, _handle := { val := some ⟨9, some 4, true, false⟩ } }
          = .ok o1
        ∧ o1._refs = 0 + 1 ∧ o1.lifetime_mode = Mode.Strong ∧ o1.persistent.IsWeak = false
        ∧ o1.handle = some 9)
      ∧ ObjectWrap.Ref { _refs := 2, _handle := { val := some ⟨9, none, true, false⟩ } }
          = .ok { _refs := 3, _handle := { val := some ⟨9, none, true, false⟩ } } := by
  obtain ⟨o1, h1, h2, h3, h4, h5, _⟩ := C10_pin_effect
    { _refs := 0, _handle := { val := some ⟨9, some 4, true, false⟩ } } rfl (by decide) (by decide)
  exact ⟨⟨o1, h1, h2, h3, h4, h5⟩, by decide⟩

/-! ## C11 -/

/-- C11. For every Strong state whose counter _refs = n is a positive int, Unref
returns normally and yields _refs = n - 1 with the handle bound to the same host
object. When n = 1 the result is in Weak mode with the weak finaliser registered
again (parameter this); when n > 1 the result is in Strong mode with no
registration and an unchanged handle. The result is Weak exactly when n = 1. -/
theorem C11_unpin_effect (this : ObjId) (o : ObjectWrap)
    (hS : o.lifetime_mode = Mode.Strong) (hpos : 0 < o._refs) (hint : o._refs ≤ 2147483647) :
    ∃ o1, o.Unref this = .ok o1
      ∧ o1._refs = o._refs - 1
      ∧ o1.handle = o.handle
      ∧ (o._refs = 1 → o1.lifetime_mode = Mode.Weak ∧ o1.persistent.IsWeak = true
          ∧ o1._handle.val.bind (fun n => n.weak) = some this)
      ∧ (1 < o._refs → o1.lifetime_mode = Mode.Strong ∧ o1.persistent.IsWeak = false
          ∧ o1._handle = o._handle)
      ∧ (o1.lifetime_mode = Mode.Weak ↔ o._refs = 1) := by
  obtain ⟨he, hw⟩ := (ObjectWrap.lifetime_mode_cases o).1.mp hS
  have hr : wrapInt32 (o._refs - 1) = o._refs - 1 := wrapInt32_of_range _ (by omega) (by omega)
  have hU := ObjectWrap.Unref_of_pinned this o he hw hpos
  rw [hr] at hU
  cases hv : o._handle.val with
  | none => simp [ObjectWrap.persistent, Persistent.IsEmpty, hv] at he
  | some n =>
    by_cases h1 : o._refs = 1
    · have hz : o._refs - 1 = 0 := by omega
      rw [if_pos hz] at hU
      refine ⟨_, hU, rfl, ?_, ?_, ?_, ?_⟩
      · simp [ObjectWrap.handle, ObjectWrap.MakeWeak, ObjectWrap.persistent, Local.New,
          Persistent.SetWeak, Persistent.MarkIndependent, hv]
      · intro _
        refine ⟨?_, ?_, ?_⟩
        · rw [(ObjectWrap.lifetime_mode_cases _).2.1]
          simp [ObjectWrap.MakeWeak, ObjectWrap.persistent, Persistent.IsWeak,
            Persistent.SetWeak, Persistent.MarkIndependent, hv]
        · simp [ObjectWrap.MakeWeak, ObjectWrap.persistent, Persistent.IsWeak,
            Persistent.SetWeak, Persistent.MarkIndependent, hv]
        · simp [ObjectWrap.MakeWeak, ObjectWrap.persistent,
            Persistent.SetWeak, Persistent.MarkIndependent, hv]
      · intro hgt
        omega
      · rw [(ObjectWrap.lifetime_mode_cases _).2.1]
        simp [ObjectWrap.MakeWeak, ObjectWrap.persistent, Persistent.IsWeak,
          Persistent.SetWeak, Persistent.MarkIndependent, hv, h1]
    · have hz : ¬ (o._refs - 1 = 0) := by omega
      rw [if_neg hz] at hU
      refine ⟨_, hU, rfl, rfl, ?_, ?_, ?_⟩
      · intro h; exact absurd h h1
      · intro _
        refine ⟨?_, hw, rfl⟩
        rw [(ObjectWrap.lifetime_mode_cases _).1]
        exact ⟨he, hw⟩
      · rw [(ObjectWrap.lifetime_mode_cases _).2.1]
        constructor
        · intro hk
          have hw2 : o.persistent.IsWeak = true := hk
          rw [hw] at hw2
          cases hw2
        · intro h; exact absurd h h1

/-- C11, witness: Unref on a Strong state with _refs = 1, and on one with _refs = 3. -/
theorem C11_unpin_effect_witness :
    ObjectWrap.lifetime_mode { _refs := 1, _handle := { val := some ⟨9, none, true, false⟩ } }
        = Mode.Strong
      ∧ ObjectWrap.Unref 4 { _refs := 1, _handle := { val := some ⟨9, none, true, false⟩ } }
          = .ok { _refs := 0, _handle := { val := some ⟨9, some 4, true, false⟩ } }
      ∧ ObjectWrap.Unref 4 { _refs := 3, _handle := { val := some ⟨9, none, true, false⟩ } }
          = .ok { _refs := 2, _handle := { val := some ⟨9, none, true, false⟩ } }
      ∧ ∃ o1, ObjectWrap.Unref 4 { _refs := 1, _handle := { val := some ⟨9, none, true, false⟩ } }
            = .ok o1
          ∧ o1._refs = 1 - 1 ∧ o1.handle = some 9 := by
  obtain ⟨o1, h1, h2, h3, _⟩ := C11_unpin_effect 4
    { _refs := 1, _handle := { val := some ⟨9, none, true, false⟩ } } rfl (by decide) (by decide)
  exact ⟨rfl, by decide, by decide, o1, h1, h2, h3⟩

/-! ## Calls on one object as steps of the system -/

/-- Writing into a heap cell what it already holds changes nothing. -/
theorem World.setCell_self (w : World) (i : ObjId) (c : Cell) (h : w.heap i = c) :
    w.setCell i c = w := by
  cases w with
  | mk heap host =>
    simp only [World.setCell, World.mk.injEq, and_true]
    funext j
    by_cases hj : j = i
    · subst hj
      simp only [if_true]
      exact h.symm
    · simp [hj]

/-- A call on a live object, as a step of the system. -/
theorem World.exec_toOp (w : World) (i : ObjId) (o : ObjectWrap) (c : Call)
    (hlive : w.heap i = .live o) :
    w.exec (c.toOp i)
      = match o.call i c with
        | .ok o1 => some (.ok (w.setCell i (.live o1)))
        | .fatal _ => some (.fatal w) := by
  cases c with
  | Ref =>
    simp only [Call.toOp, World.exec, hlive, ObjectWrap.call]
  | Unref =>
    simp only [Call.toOp, World.exec, hlive, ObjectWrap.call]
  | handle =>
    simp only [Call.toOp, World.exec, hlive, ObjectWrap.call]
    rw [World.setCell_self w i _ hlive]

/-- A sequence of calls on a live object, as a run of the system. -/
theorem World.run_toOp (i : ObjId) : ∀ (cs : List Call) (w : World) (o : ObjectWrap),
    w.heap i = .live o →
      w.run (cs.map (Call.toOp i))
        = match o.calls i cs with
          | .ok o1 => some (w.setCell i (.live o1))
          | .fatal _ => none := by
  intro cs
  induction cs with
  | nil =>
    intro w o hlive
    simp only [List.map_nil, World.run, ObjectWrap.calls]
    rw [World.setCell_self w i _ hlive]
  | cons c cs ih =>
    intro w o hlive
    simp only [List.map_cons, World.run, ObjectWrap.calls, World.exec_toOp w i o c hlive]
    cases hc : o.call i c with
    | fatal x => rfl
    | ok o1 =>
      simp only
      rw [ih (w.setCell i (.live o1)) o1 (World.heap_setCell_same _ _ _)]
      simp only [World.setCell_setCell]

/-! ## C12 -/

/-- C12. The accessor handle() leaves the state as it is: on every object any number
of handle calls returns normally with _refs and _handle (lifetime mode, weak
registration, bound host object) identical to what they were; on an attached object
each call returns a non-empty Local; and as steps of the system any number of handle
calls on a live object is a run that leaves the whole world as it is. -/
theorem C12_export_handle_frame (this : ObjId) (o : ObjectWrap) (k : Nat) :
    o.calls this (List.replicate k Call.handle) = .ok o
      ∧ (o.persistent.IsEmpty = false → ∃ s, o.handle = some s)
      ∧ (∀ w : World, w.heap this = .live o →
          w.run (List.replicate k (Op.handle this)) = some w) := by
  have hcalls : ∀ k : Nat, o.calls this (List.replicate k Call.handle) = .ok o := by
    intro k
    induction k with
    | zero => rfl
    | succ k ih =>
      rw [List.replicate_succ]
      simp only [ObjectWrap.calls, ObjectWrap.call]
      exact ih
  refine ⟨hcalls k, ?_, ?_⟩
  · intro he
    cases hv : o._handle.val with
    | none => simp [ObjectWrap.persistent, Persistent.IsEmpty, hv] at he
    | some n => exact ⟨n.object, by simp [ObjectWrap.handle, ObjectWrap.persistent, Local.New, hv]⟩
  · intro w hlive
    have hmap : List.replicate k (Op.handle this)
        = (List.replicate k Call.handle).map (Call.toOp this) := by
      rw [List.map_replicate]
      rfl
    rw [hmap, World.run_toOp this _ w o hlive, hcalls k]
    simp only
    rw [World.setCell_self w this _ hlive]

/-! ## How one step changes one heap cell -/

/-- The ways in which a successful step can change the heap cell of the address i: not
at all; construction of i; Wrap on i; a call (Ref, Unref, handle) on i; the collector
freeing i; the collector marking the handle of i near death. -/
theorem World.exec_cell (w w2 : World) (op : Op) (i : ObjId)
    (h : w.exec op = some (.ok w2)) :
    w2.heap i = w.heap i
      ∨ (w.heap i = .unallocated ∧ w2.heap i = .live ObjectWrap.new)
      ∨ (∃ s o o1 host1, op = .Wrap i s ∧ w.heap i = .live o
          ∧ o.Wrap i w.host s = .ok (o1, host1) ∧ w2.heap i = .live o1)
      ∨ (∃ c o o1, w.heap i = .live o ∧ o.call i c = .ok o1 ∧ w2.heap i = .live o1)
      ∨ w2.heap i = .freed
      ∨ (∃ o n, w.heap i = .live o ∧ o._handle.val = some n
          ∧ w2.heap i = .live { o with _handle := { val := some { n with nearDeath := true } } }) := by
  cases op with
  | construct j =>
    simp only [World.exec] at h
    cases hh : w.heap j with
    | freed => rw [hh] at h; cases h
    | live o => rw [hh] at h; cases h
    | unallocated =>
      rw [hh] at h
      simp only [Option.some.injEq, Outcome.ok.injEq] at h
      subst h
      by_cases hij : i = j
      · subst hij
        exact Or.inr (Or.inl ⟨hh, World.heap_setCell_same _ _ _⟩)
      · exact Or.inl (World.heap_setCell_other w j i _ hij)
  | Wrap j s =>
    simp only [World.exec] at h
    cases hh : w.heap j with
    | unallocated => rw [hh] at h; cases h
    | freed => rw [hh] at h; cases h
    | live o =>
      rw [hh] at h
      simp only at h
      cases hr : o.Wrap j w.host s with
      | fatal x => rw [hr] at h; cases h
      | ok x =>
        obtain ⟨o1, host1⟩ := x
        rw [hr] at h
        simp only [Option.some.injEq, Outcome.ok.injEq] at h
        subst h
        by_cases hij : i = j
        · subst hij
          exact Or.inr (Or.inr (Or.inl ⟨s, o, o1, host1, rfl, hh, hr,
            World.heap_setCell_same _ _ _⟩))
        · exact Or.inl (World.heap_setCell_other w j i _ hij)
  | Ref j =>
    simp only [World.exec] at h
    cases hh : w.heap j with
    | unallocated => rw [hh] at h; cases h
    | freed => rw [hh] at h; cases h
    | live o =>
      rw [hh] at h
      simp only at h
      cases hr : o.Ref with
      | fatal x => rw [hr] at h; cases h
      | ok o1 =>
        rw [hr] at h
        simp only [Option.some.injEq, Outcome.ok.injEq] at h
        subst h
        by_cases hij : i = j
        · subst hij
          exact Or.inr (Or.inr (Or.inr (Or.inl ⟨Call.Ref, o, o1, hh, hr,
            World.heap_setCell_same _ _ _⟩)))
        · exact Or.inl (World.heap_setCell_other w j i _ hij)
  | Unref j =>
    simp only [World.exec] at h
    cases hh : w.heap j with
    | unallocated => rw [hh] at h; cases h
    | freed => rw [hh] at h; cases h
    | live o =>
      rw [hh] at h
      simp only at h
      cases hr : o.Unref j with
      | fatal x => rw [hr] at h; cases h
      | ok o1 =>
        rw [hr] at h
        simp only [Option.some.injEq, Outcome.ok.injEq] at h
        subst h
        by_cases hij : i = j
        · subst hij
          exact Or.inr (Or.inr (Or.inr (Or.inl ⟨Call.Unref, o, o1, hh, hr,
            World.heap_setCell_same _ _ _⟩)))
        · exact Or.inl (World.heap_setCell_other w j i _ hij)
  | handle j =>
    simp only [World.exec] at h
    cases hh : w.heap j with
    | unallocated => rw [hh] at h; cases h
    | freed => rw [hh] at h; cases h
    | live o =>
      rw [hh] at h
      simp only [Option.some.injEq, Outcome.ok.injEq] at h
      subst h
      exact Or.inl rfl
  | collect j =>
    simp only [World.exec] at h
    cases hh : w.heap j with
    | unallocated => rw [hh] at h; cases h
    | freed => rw [hh] at h; cases h
    | live o =>
      rw [hh] at h
      simp only at h
      unfold World.collect at h
      cases hv : o._handle.val with
      | none => rw [hv] at h; cases h
      | some n =>
        rw [hv] at h
        simp only at h
        cases hn : n.weak with
        | none => rw [hn] at h; cases h
        | some p =>
          rw [hn] at h
          simp only at h
          split at h
          · split at h
            · simp only [Option.some.injEq, Outcome.ok.injEq] at h
              subst h
              by_cases hip : i = p
              · subst hip
                exact Or.inr (Or.inr (Or.inr (Or.inr (Or.inl (World.heap_setCell_same _ _ _)))))
              · rw [World.heap_setCell_other _ p i _ hip]
                by_cases hij : i = j
                · subst hij
                  exact Or.inr (Or.inr (Or.inr (Or.inr (Or.inr ⟨o, n, hh, hv, by
                    rw [World.heap_setCell_same, hn]⟩))))
                · exact Or.inl (World.heap_setCell_other w j i _ hij)
            · cases h
          · cases h

/-- A successful call leaves the handle bound to the same host object. -/
theorem ObjectWrap.call_binding (this : ObjId) (c : Call) (o o1 : ObjectWrap)
    (h : o.call this c = .ok o1) : o1.handle = o.handle := by
  cases he : o.persistent.IsEmpty with
  | false => exact (ObjectWrap.call_handle this c o o1 he h).2
  | true =>
    cases c with
    | Ref =>
      simp only [ObjectWrap.call, ObjectWrap.Ref_of_empty o he] at h
      cases h
    | Unref =>
      simp only [ObjectWrap.call, ObjectWrap.Unref_of_not_pinned this o (Or.inl he)] at h
      cases h
    | handle =>
      simp only [ObjectWrap.call] at h
      injection h with h
      rw [h]

/-! ## The binding of objects to host objects along a run -/

/-- The handle that a successful Wrap leaves is bound to the host object passed. -/
theorem ObjectWrap.handle_after_Wrap (this : ObjId) (o o1 : ObjectWrap) (host host1 : Host)
    (s : SlotId) (h : o.Wrap this host s = .ok (o1, host1)) :
    o.persistent.IsEmpty = true ∧ o1.handle = some s := by
  unfold ObjectWrap.Wrap at h
  split at h
  · cases h
  · rename_i he
    split at h
    · cases h
    · injection h with h
      injection h with h1 h2
      subst h1
      exact ⟨by simpa using he, rfl⟩

/-- A binding seen after a successful step was made by that step, a Wrap, or was
there before the step. -/
theorem World.binding_back (w w2 : World) (op : Op) (i : ObjId) (o2 : ObjectWrap) (s : SlotId)
    (h : w.exec op = some (.ok w2)) (hlive : w2.heap i = .live o2) (hb : o2.handle = some s) :
    op = .Wrap i s ∨ ∃ o, w.heap i = .live o ∧ o.handle = some s := by
  rcases World.exec_cell w w2 op i h with hc | hc | hc | hc | hc | hc
  · exact Or.inr ⟨o2, by rw [← hc]; exact hlive, hb⟩
  · rw [hc.2] at hlive
    injection hlive with hlive
    subst hlive
    cases hb
  · obtain ⟨t, o, o1, host1, hop, _, hW, h2⟩ := hc
    rw [h2] at hlive
    injection hlive with hlive
    subst hlive
    have ht := (ObjectWrap.handle_after_Wrap i o o1 w.host host1 t hW).2
    rw [ht] at hb
    injection hb with hb
    subst hb
    exact Or.inl hop
  · obtain ⟨c, o, o1, h1, hcall, h2⟩ := hc
    rw [h2] at hlive
    injection hlive with hlive
    subst hlive
    exact Or.inr ⟨o, h1, by rw [← ObjectWrap.call_binding i c o o1 hcall]; exact hb⟩
  · rw [hc] at hlive
    cases hlive
  · obtain ⟨o, n, h1, hv, h2⟩ := hc
    rw [h2] at hlive
    injection hlive with hlive
    subst hlive
    exact Or.inr ⟨o, h1, by
      simp only [ObjectWrap.handle, ObjectWrap.persistent, Local.New, hv] at hb ⊢
      exact hb⟩

/-- A successful step leaves a bound live object either live and bound to the same
host object, or freed. -/
theorem World.binding_step (w w2 : World) (op : Op) (i : ObjId) (o : ObjectWrap) (s : SlotId)
    (h : w.exec op = some (.ok w2)) (hlive : w.heap i = .live o) (hb : o.handle = some s) :
    w2.heap i = .freed ∨ ∃ o2, w2.heap i = .live o2 ∧ o2.handle = some s := by
  have hne : o.persistent.IsEmpty = false := by
    cases hv : o._handle.val with
    | none => simp [ObjectWrap.handle, ObjectWrap.persistent, Local.New, hv] at hb
    | some n => simp [ObjectWrap.persistent, Persistent.IsEmpty, hv]
  rcases World.exec_cell w w2 op i h with hc | hc | hc | hc | hc | hc
  · exact Or.inr ⟨o, by rw [hc]; exact hlive, hb⟩
  · rw [hc.1] at hlive
    cases hlive
  · obtain ⟨t, o0, o1, host1, _, h1, hW, _⟩ := hc
    rw [h1] at hlive
    injection hlive with hlive
    subst hlive
    have hem := (ObjectWrap.handle_after_Wrap i o0 o1 w.host host1 t hW).1
    rw [hne] at hem
    cases hem
  · obtain ⟨c, o0, o1, h1, hcall, h2⟩ := hc
    rw [h1] at hlive
    injection hlive with hlive
    subst hlive
    exact Or.inr ⟨o1, h2, by rw [ObjectWrap.call_binding i c o0 o1 hcall]; exact hb⟩
  · exact Or.inl hc
  · obtain ⟨o0, n, h1, hv, h2⟩ := hc
    rw [h1] at hlive
    injection hlive with hlive
    subst hlive
    exact Or.inr ⟨_, h2, by
      simp only [ObjectWrap.handle, ObjectWrap.persistent, Local.New, hv] at hb ⊢
      exact hb⟩

/-- Every binding seen at the end of a run was made by a Wrap step of the run or was
there at its start. -/
theorem World.binding_back_run : ∀ (ops : List Op) (w w1 : World), w.run ops = some w1 →
    ∀ (i : ObjId) (o1 : ObjectWrap) (s : SlotId), w1.heap i = .live o1 → o1.handle = some s →
      Op.Wrap i s ∈ ops ∨ ∃ o, w.heap i = .live o ∧ o.handle = some s := by
  intro ops
  induction ops with
  | nil =>
    intro w w1 h i o1 s hlive hb
    simp only [World.run, Option.some.injEq] at h
    subst h
    exact Or.inr ⟨o1, hlive, hb⟩
  | cons op ops ih =>
    intro w w1 h i o1 s hlive hb
    simp only [World.run] at h
    cases he : w.exec op with
    | none => rw [he] at h; cases h
    | some r =>
      cases r with
      | fatal x => rw [he] at h; cases h
      | ok w2 =>
        rw [he] at h
        rcases ih w2 w1 h i o1 s hlive hb with hm | ⟨o2, h2, hb2⟩
        · exact Or.inl (List.mem_cons_of_mem _ hm)
        · rcases World.binding_back w w2 op i o2 s he h2 hb2 with hop | hprev
          · exact Or.inl (by rw [hop]; exact List.mem_cons_self _ _)
          · exact Or.inr hprev

/-- Along a run a bound live object stays bound to the same host object for as long
as it is live. -/
theorem World.binding_run : ∀ (ops : List Op) (w w1 : World), w.run ops = some w1 →
    ∀ (i : ObjId) (o o1 : ObjectWrap) (s : SlotId), w.heap i = .live o → o.handle = some s →
      w1.heap i = .live o1 → o1.handle = some s := by
  intro ops
  induction ops with
  | nil =>
    intro w w1 h i o o1 s hlive hb hlive1
    simp only [World.run, Option.some.injEq] at h
    subst h
    rw [hlive] at hlive1
    injection hlive1 with hlive1
    subst hlive1
    exact hb
  | cons op ops ih =>
    intro w w1 h i o o1 s hlive hb hlive1
    simp only [World.run] at h
    cases he : w.exec op with
    | none => rw [he] at h; cases h
    | some r =>
      cases r with
      | fatal x => rw [he] at h; cases h
      | ok w2 =>
        rw [he] at h
        rcases World.binding_step w w2 op i o s he hlive hb with hf | ⟨o2, h2, hb2⟩
        · have hfin := (World.run_of_freed i ops w2 w1 hf h).1
          rw [hfin] at hlive1
          cases hlive1
        · exact ih w2 w1 h i o2 o1 s h2 hb2 hlive1

/-! ## C13 -/

/-- C13, counterexample. After construct 0, construct 1, Wrap 0 on the host object 5
and Wrap 1 on the same host object 5, all four steps returning normally, the two
live attached objects at the addresses 0 and 1 are both bound to the host object
5. -/
theorem C13_counterexample :
    ∃ w o0 o1, (World.init Host.blank).run
          [.construct 0, .construct 1, .Wrap 0 5, .Wrap 1 5] = some w
      ∧ w.heap 0 = .live o0 ∧ w.heap 1 = .live o1
      ∧ o0.lifetime_mode = Mode.Weak ∧ o1.lifetime_mode = Mode.Weak
      ∧ o0.handle = some 5 ∧ o1.handle = some 5 :=
  ⟨_, _, _, rfl, rfl, rfl, rfl, rfl, rfl, rfl⟩

/-- C13, amended. In every world reached by a run of the system from the initial
world: a live object bound to a host object s was bound by a Wrap step of the run
on s, and stays bound to s, and to no other host object, along every continuation
of the run for as long as it is live; and when no host object is passed to Wrap
more than once in the run, no host object is bound to more than one live object.
Wrap itself does not check whether the host object passed is already bound. -/
theorem C13_binding (host : Host) (ops : List Op) (w : World)
    (hrun : (World.init host).run ops = some w) :
    (∀ (i : ObjId) (o : ObjectWrap) (s : SlotId), w.heap i = .live o → o.handle = some s →
        Op.Wrap i s ∈ ops
          ∧ ∀ (ops2 : List Op) (w2 : World) (o2 : ObjectWrap) (t : SlotId),
              w.run ops2 = some w2 → w2.heap i = .live o2 → o2.handle = some t → t = s)
      ∧ ((Op.wrapSlots ops).Nodup →
          ∀ (i j : ObjId) (oi oj : ObjectWrap) (s : SlotId),
            w.heap i = .live oi → w.heap j = .live oj →
            oi.handle = some s → oj.handle = some s → i = j) := by
  have hback : ∀ (i : ObjId) (o : ObjectWrap) (s : SlotId), w.heap i = .live o →
      o.handle = some s → Op.Wrap i s ∈ ops := by
    intro i o s hlive hb
    rcases World.binding_back_run ops (World.init host) w hrun i o s hlive hb with hm | ⟨o0, h0, _⟩
    · exact hm
    · cases h0
  refine ⟨?_, ?_⟩
  · intro i o s hlive hb
    refine ⟨hback i o s hlive hb, ?_⟩
    intro ops2 w2 o2 t h2 hlive2 hb2
    have hs := World.binding_run ops2 w w2 h2 i o o2 s hlive hb hlive2
    rw [hs] at hb2
    injection hb2 with hb2
    exact hb2.symm
  · intro hnd i j oi oj s hi hj hbi hbj
    have hmi : Op.Wrap i s ∈ ops.filter Op.isWrap :=
      List.mem_filter.mpr ⟨hback i oi s hi hbi, rfl⟩
    have hmj : Op.Wrap j s ∈ ops.filter Op.isWrap :=
      List.mem_filter.mpr ⟨hback j oj s hj hbj, rfl⟩
    have heq := List.inj_on_of_nodup_map hnd hmi hmj rfl
    injection heq

/-- C13, witness: two objects wrapped on two different host objects. -/
theorem C13_binding_witness :
    ∃ w, (World.init Host.blank).run [.construct 0, .construct 1, .Wrap 0 5, .Ref 0, .Wrap 1 6]
          = some w
      ∧ (Op.wrapSlots [.construct 0, .construct 1, .Wrap 0 5, .Ref 0, .Wrap 1 6]).Nodup
      ∧ ∀ (i j : ObjId) (oi oj : ObjectWrap) (s : SlotId),
          w.heap i = .live oi → w.heap j = .live oj →
          oi.handle = some s → oj.handle = some s → i = j :=
  ⟨_, rfl, by decide,
    (C13_binding Host.blank [.construct 0, .construct 1, .Wrap 0 5, .Ref 0, .Wrap 1 6] _ rfl).2
      (by decide)⟩

/-! ## States whose weak registration is in step with the counter -/

/-- The state that Wrap leaves on a fresh object is in step. -/
theorem ObjectWrap.InStep_Wrap_new (this : ObjId) (host host1 : Host) (s : SlotId)
    (o1 : ObjectWrap) (h : ObjectWrap.new.Wrap this host s = .ok (o1, host1)) :
    o1.InStep this := by
  rw [ObjectWrap.Wrap_new this host s o1 host1 h]
  exact ⟨_, rfl, Or.inl ⟨rfl, rfl, rfl⟩⟩

/-- An in-step state is attached, and consistent in the sense of the system
invariant. -/
theorem ObjectWrap.InStep_attached (this : ObjId) (o : ObjectWrap) (h : o.InStep this) :
    o.persistent.IsEmpty = false ∧ 0 ≤ o._refs ∧ (o.persistent.IsWeak = true ↔ o._refs = 0)
      ∧ o.Consistent this := by
  obtain ⟨n, hv, hn⟩ := h
  rcases hn with ⟨hw, _, hr⟩ | ⟨hw, hr⟩
  · refine ⟨by simp [ObjectWrap.persistent, Persistent.IsEmpty, hv], by omega, ?_, ?_⟩
    · simp [ObjectWrap.persistent, Persistent.IsWeak, hv, hw, hr]
    · refine ⟨fun h0 => (by rw [hv] at h0; cases h0), ?_⟩
      intro m p hm hp
      rw [hv] at hm
      injection hm with hm
      subst hm
      rw [hw] at hp
      injection hp with hp
      exact ⟨hp.symm, hr⟩
  · refine ⟨by simp [ObjectWrap.persistent, Persistent.IsEmpty, hv], by omega, ?_, ?_⟩
    · simp only [ObjectWrap.persistent, Persistent.IsWeak, hv, hw, Option.isSome_none,
        Bool.false_eq_true, false_iff]
      omega
    · refine ⟨fun h0 => (by rw [hv] at h0; cases h0), ?_⟩
      intro m p hm hp
      rw [hv] at hm
      injection hm with hm
      subst hm
      rw [hw] at hp
      cases hp

/-- Ref on an in-step state below the largest int: the result is in step with the
counter one higher. -/
theorem ObjectWrap.InStep_Ref (this : ObjId) (o : ObjectWrap) (h : o.InStep this)
    (hhi : o._refs < 2147483647) :
    ∃ o1, o.Ref = .ok o1 ∧ o1.InStep this ∧ o1._refs = o._refs + 1 := by
  obtain ⟨he, h0, _, _⟩ := ObjectWrap.InStep_attached this o h
  have hr : wrapInt32 (o._refs + 1) = o._refs + 1 := wrapInt32_of_range _ (by omega) (by omega)
  refine ⟨_, ObjectWrap.Ref_of_attached o he, ?_, hr⟩
  obtain ⟨n, hv, _⟩ := h
  refine ⟨{ n with weak := none }, by simp [ObjectWrap.persistent, Persistent.ClearWeak, hv],
    Or.inr ⟨rfl, ?_⟩⟩
  simp only [hr]
  omega

/-- Unref, when it returns normally on an in-step state: the result is in step with
the counter one lower. -/
theorem ObjectWrap.InStep_Unref (this : ObjId) (o o1 : ObjectWrap) (h : o.InStep this)
    (hhi : o._refs ≤ 2147483647) (hU : o.Unref this = .ok o1) :
    o1.InStep this ∧ o1._refs = o._refs - 1 := by
  obtain ⟨he, _, hwr, _⟩ := ObjectWrap.InStep_attached this o h
  obtain ⟨n, hv, hn⟩ := h
  rcases hn with ⟨hw, _, hr⟩ | ⟨hw, hr⟩
  · rw [ObjectWrap.Unref_of_not_pinned this o (Or.inr (Or.inr (by omega)))] at hU
    cases hU
  · have hnw : o.persistent.IsWeak = false := by
      simp [ObjectWrap.persistent, Persistent.IsWeak, hv, hw]
    have hrr : wrapInt32 (o._refs - 1) = o._refs - 1 :=
      wrapInt32_of_range _ (by omega) (by omega)
    rw [ObjectWrap.Unref_of_pinned this o he hnw hr, hrr] at hU
    split at hU
    · rename_i hz
      injection hU with hU
      subst hU
      refine ⟨⟨{ n with weak := some this, independent := true }, ?_, Or.inl ⟨rfl, rfl, hz⟩⟩, rfl⟩
      simp [ObjectWrap.MakeWeak, ObjectWrap.persistent, Persistent.SetWeak,
        Persistent.MarkIndependent, hv]
    · rename_i hz
      injection hU with hU
      subst hU
      refine ⟨⟨n, hv, Or.inr ⟨hw, ?_⟩⟩, rfl⟩
      show 0 < o._refs - 1
      omega

/-- Ref followed by Unref on an in-step state below the largest int returns that very
state. -/
theorem ObjectWrap.Ref_Unref_of_InStep (this : ObjId) (o : ObjectWrap) (h : o.InStep this)
    (hhi : o._refs < 2147483647) :
    ∃ o1, o.Ref = .ok o1 ∧ o1.Unref this = .ok o := by
  obtain ⟨he, h0, _, _⟩ := ObjectWrap.InStep_attached this o h
  have hr : wrapInt32 (o._refs + 1) = o._refs + 1 := wrapInt32_of_range _ (by omega) (by omega)
  refine ⟨_, ObjectWrap.Ref_of_attached o he, ?_⟩
  obtain ⟨n, hv, hn⟩ := h
  have he1 : (ObjectWrap.persistent
      { _refs := wrapInt32 (o._refs + 1), _handle := o.persistent.ClearWeak }).IsEmpty = false := by
    simpa [ObjectWrap.persistent] using he
  have hw1 : (ObjectWrap.persistent
      { _refs := wrapInt32 (o._refs + 1), _handle := o.persistent.ClearWeak }).IsWeak = false := by
    simp [ObjectWrap.persistent]
  rw [ObjectWrap.Unref_of_pinned this _ he1 hw1 (by simp only [hr]; omega)]
  simp only [hr]
  have hback : wrapInt32 (o._refs + 1 - 1) = o._refs := by
    rw [wrapInt32_of_range _ (by omega) (by omega)]
    omega
  rw [hback]
  cases o with
  | mk refs hd =>
    cases hd with
    | mk v =>
      simp only at hv hn
      subst hv
      rcases hn with ⟨hw, hi, hz⟩ | ⟨hw, hpos⟩
      · subst hz
        cases n with
        | mk obj wk ind nd =>
          simp only at hw hi
          subst hw
          subst hi
          rfl
      · have hne : ¬ refs = 0 := by omega
        cases n with
        | mk obj wk ind nd =>
          simp only at hw
          subst hw
          simp only [if_neg hne]
          rfl

/-- A run of two sequences of steps is the run of the second from the world the first
one ends in. -/
theorem World.run_append : ∀ (ops ops2 : List Op) (w : World),
    w.run (ops ++ ops2) = (w.run ops).bind fun w1 => w1.run ops2 := by
  intro ops
  induction ops with
  | nil => intro ops2 w; rfl
  | cons op ops ih =>
    intro ops2 w
    simp only [List.cons_append, World.run]
    cases he : w.exec op with
    | none => rfl
    | some r =>
      cases r with
      | fatal x => rfl
      | ok w2 => exact ih ops2 w2

/-- The run construct, Wrap from the initial world, for a Wrap that returns normally
on a fresh object. -/
theorem World.run_construct_Wrap (host host1 : Host) (this : ObjId) (s : SlotId)
    (o0 : ObjectWrap) (h : ObjectWrap.new.Wrap this host s = .ok (o0, host1)) :
    ∃ w, (World.init host).run [.construct this, .Wrap this s] = some w
      ∧ w.heap this = .live o0 ∧ w.host = host1 := by
  refine ⟨{ heap := (((World.init host).setCell this (.live ObjectWrap.new)).setCell this
      (.live o0)).heap, host := host1 }, ?_, World.heap_setCell_same _ _ _, rfl⟩
  have h1 : (World.init host).exec (.construct this)
      = some (.ok ((World.init host).setCell this (.live ObjectWrap.new))) := rfl
  have h2 : ((World.init host).setCell this (.live ObjectWrap.new)).exec (.Wrap this s)
      = some (.ok { heap := (((World.init host).setCell this (.live ObjectWrap.new)).setCell this
          (.live o0)).heap, host := host1 }) := by
    simp only [World.exec, World.heap_setCell_same, World.host_setCell]
    have hh : (World.init host).host = host := rfl
    rw [hh, h]
  simp only [World.run, h1, h2]

/-! ## Outstanding pins -/

theorem Call.outstanding_nil : Call.outstanding [] = 0 := rfl

theorem Call.outstanding_Ref (cs : List Call) :
    Call.outstanding (Call.Ref :: cs) = Call.outstanding cs + 1 := by
  simp only [Call.outstanding, List.count_cons_self,
    List.count_cons_of_ne (show Call.Unref ≠ Call.Ref by decide), Nat.cast_add, Nat.cast_one]
  omega

theorem Call.outstanding_Unref (cs : List Call) :
    Call.outstanding (Call.Unref :: cs) = Call.outstanding cs - 1 := by
  simp only [Call.outstanding, List.count_cons_self,
    List.count_cons_of_ne (show Call.Ref ≠ Call.Unref by decide), Nat.cast_add, Nat.cast_one]
  omega

theorem Call.outstanding_handle (cs : List Call) :
    Call.outstanding (Call.handle :: cs) = Call.outstanding cs := by
  simp only [Call.outstanding, List.count_cons_of_ne (show Call.Ref ≠ Call.handle by decide),
    List.count_cons_of_ne (show Call.Unref ≠ Call.handle by decide)]

/-- The outstanding pins never exceed the length of the sequence. -/
theorem Call.outstanding_le_length (cs : List Call) : Call.outstanding cs ≤ cs.length := by
  have h := List.count_le_length Call.Ref cs
  unfold Call.outstanding
  omega

/-- In a sequence shorter than 2^31 the outstanding pins stay below 2^31 after every
step. -/
theorem Call.outstanding_take_lt (cs : List Call) (h : cs.length < 2147483648) :
    ∀ k : Nat, Call.outstanding (cs.take k) < 2147483648 := by
  intro k
  have h1 := Call.outstanding_le_length (cs.take k)
  have h2 : (cs.take k).length ≤ cs.length := by
    rw [List.length_take]
    exact Nat.min_le_right _ _
  omega

/-- The result of wrapInt32 is in the range of an int. -/
theorem wrapInt32_range (x : Int) :
    -2147483648 ≤ wrapInt32 x ∧ wrapInt32 x ≤ 2147483647 := by
  unfold wrapInt32
  omega

/-- A successful sequence of calls on an in-step state, with the outstanding pins
below 2^31 after every step: the result is in step and its counter is the counter at
the start plus the outstanding pins of the sequence. -/
theorem ObjectWrap.InStep_calls_outstanding (this : ObjId) :
    ∀ (cs : List Call) (o o1 : ObjectWrap), o.InStep this →
      (∀ k : Nat, o._refs + Call.outstanding (cs.take k) < 2147483648) →
      o.calls this cs = .ok o1 →
      o1.InStep this ∧ o1._refs = o._refs + Call.outstanding cs := by
  intro cs
  induction cs with
  | nil =>
    intro o o1 hs _ h
    simp only [ObjectWrap.calls] at h
    injection h with h
    subst h
    exact ⟨hs, by simp [Call.outstanding_nil]⟩
  | cons c cs ih =>
    intro o o1 hs hb h
    simp only [ObjectWrap.calls] at h
    have h1 := hb 1
    have hnext : ∀ k : Nat,
        o._refs + Call.outstanding (c :: cs.take k) < 2147483648 := by
      intro k
      have hk := hb (k + 1)
      rw [List.take_succ_cons] at hk
      exact hk
    simp only [List.take_succ_cons, List.take_zero] at h1
    cases hc : o.call this c with
    | fatal x => rw [hc] at h; cases h
    | ok o2 =>
      rw [hc] at h
      cases c with
      | Ref =>
        rw [Call.outstanding_Ref, Call.outstanding_nil] at h1
        obtain ⟨o3, h3, hs3, hr3⟩ := ObjectWrap.InStep_Ref this o hs (by omega)
        simp only [ObjectWrap.call, h3] at hc
        injection hc with hc
        subst hc
        obtain ⟨hs1, hr1⟩ := ih o3 o1 hs3
          (fun k => by have hk := hnext k; rw [Call.outstanding_Ref] at hk; omega) h
        exact ⟨hs1, by rw [Call.outstanding_Ref]; omega⟩
      | Unref =>
        rw [Call.outstanding_Unref, Call.outstanding_nil] at h1
        simp only [ObjectWrap.call] at hc
        have h0 := hb 0
        simp only [List.take_zero, Call.outstanding_nil] at h0
        obtain ⟨hs2, hr2⟩ := ObjectWrap.InStep_Unref this o o2 hs (by omega) hc
        obtain ⟨hs1, hr1⟩ := ih o2 o1 hs2
          (fun k => by have hk := hnext k; rw [Call.outstanding_Unref] at hk; omega) h
        exact ⟨hs1, by rw [Call.outstanding_Unref]; omega⟩
      | handle =>
        simp only [ObjectWrap.call] at hc
        injection hc with hc
        subst hc
        obtain ⟨hs1, hr1⟩ := ih o o1 hs
          (fun k => by have hk := hnext k; rw [Call.outstanding_handle] at hk; exact hk) h
        exact ⟨hs1, by rw [Call.outstanding_handle]; exact hr1⟩

/-- The state that Wrap leaves on a fresh object is well attached. -/
theorem ObjectWrap.WellAttached_Wrap_new (this : ObjId) (host host1 : Host) (s : SlotId)
    (o1 : ObjectWrap) (h : ObjectWrap.new.Wrap this host s = .ok (o1, host1)) :
    o1.WellAttached this := by
  rw [ObjectWrap.Wrap_new this host s o1 host1 h]
  exact ⟨_, rfl, Or.inr ⟨rfl, rfl, rfl⟩,
    (by show (-2147483648 : Int) ≤ 0; decide), (by show (0 : Int) ≤ 2147483647; decide)⟩

/-- One successful call on a well attached state: the result is well attached, and
its counter is the counter before, plus the pins the call adds, minus 2^32 for each
time the int has wrapped (N times); when the int has not wrapped an in-step state
stays in step. -/
theorem ObjectWrap.WellAttached_call (this : ObjId) (c : Call) (o o1 : ObjectWrap)
    (hw : o.WellAttached this) (h : o.call this c = .ok o1) :
    o1.WellAttached this
      ∧ ∃ N : Nat, o1._refs = o._refs + Call.outstanding [c] - (N : Int) * 4294967296
          ∧ (N = 0 → o.InStep this → o1.InStep this) := by
  obtain ⟨n, hv, hreg, hlo, hhi⟩ := hw
  have he : o.persistent.IsEmpty = false := by
    simp [ObjectWrap.persistent, Persistent.IsEmpty, hv]
  cases c with
  | Ref =>
    simp only [ObjectWrap.call, ObjectWrap.Ref_of_attached o he] at h
    injection h with h
    subst h
    rw [Call.outstanding_Ref, Call.outstanding_nil]
    refine ⟨⟨{ n with weak := none }, by simp [ObjectWrap.persistent, Persistent.ClearWeak, hv],
      Or.inl rfl, (wrapInt32_range _).1, (wrapInt32_range _).2⟩, ?_⟩
    by_cases hmax : o._refs < 2147483647
    · refine ⟨0, ?_, ?_⟩
      · simp only [wrapInt32_of_range (o._refs + 1) (by omega) (by omega)]
        omega
      · intro _ hs
        obtain ⟨o3, h3, hs3, _⟩ := ObjectWrap.InStep_Ref this o hs hmax
        rw [ObjectWrap.Ref_of_attached o he] at h3
        injection h3 with h3
        rw [h3]
        exact hs3
    · refine ⟨1, ?_, fun h1 => absurd h1 (by decide)⟩
      have heq : o._refs = 2147483647 := by omega
      simp only [heq, wrapInt32]
      decide
  | Unref =>
    simp only [ObjectWrap.call] at h
    have hnf : ¬ (o.Unref this).isFatal = true := by rw [h]; simp [Outcome.isFatal]
    rw [ObjectWrap.Unref_isFatal_iff] at hnf
    simp only [not_or, Bool.not_eq_true, not_le] at hnf
    obtain ⟨_, hnw, hpos⟩ := hnf
    have hwn : n.weak = none := by
      cases hq : n.weak with
      | none => rfl
      | some q => simp [ObjectWrap.persistent, Persistent.IsWeak, hv, hq] at hnw
    have hrr : wrapInt32 (o._refs - 1) = o._refs - 1 :=
      wrapInt32_of_range _ (by omega) (by omega)
    rw [Call.outstanding_Unref, Call.outstanding_nil]
    have hstep : ∃ N : Nat, o1._refs = o._refs + (0 - 1) - (N : Int) * 4294967296
        ∧ (N = 0 → o.InStep this → o1.InStep this) := by
      refine ⟨0, ?_, fun _ hs => (ObjectWrap.InStep_Unref this o o1 hs hhi h).1⟩
      have hh := h
      rw [ObjectWrap.Unref_of_pinned this o he hnw hpos, hrr] at hh
      split at hh <;> injection hh with hh <;> subst hh <;>
        (simp [ObjectWrap.MakeWeak]; omega)
    refine ⟨?_, hstep⟩
    rw [ObjectWrap.Unref_of_pinned this o he hnw hpos, hrr] at h
    split at h
    · rename_i hz
      injection h with h
      subst h
      refine ⟨{ n with weak := some this, independent := true }, ?_,
        Or.inr ⟨rfl, rfl, hz⟩, ?_, ?_⟩
      · simp [ObjectWrap.MakeWeak, ObjectWrap.persistent, Persistent.SetWeak,
          Persistent.MarkIndependent, hv]
      · show -2147483648 ≤ o._refs - 1
        omega
      · show o._refs - 1 ≤ 2147483647
        omega
    · injection h with h
      subst h
      refine ⟨n, hv, Or.inl hwn, ?_, ?_⟩
      · show -2147483648 ≤ o._refs - 1
        omega
      · show o._refs - 1 ≤ 2147483647
        omega
  | handle =>
    simp only [ObjectWrap.call] at h
    injection h with h
    subst h
    rw [Call.outstanding_handle, Call.outstanding_nil]
    exact ⟨⟨n, hv, hreg, hlo, hhi⟩, 0, by simp, fun _ hs => hs⟩

/-- A successful sequence of calls on a well attached state, of any length: the
result is well attached, and its counter is the counter at the start, plus the
outstanding pins of the sequence, minus 2^32 for each time the int has wrapped (N
times); when the int has not wrapped an in-step state ends in step. -/
theorem ObjectWrap.WellAttached_calls (this : ObjId) :
    ∀ (cs : List Call) (o o1 : ObjectWrap), o.WellAttached this →
      o.calls this cs = .ok o1 →
      o1.WellAttached this
        ∧ ∃ N : Nat, o1._refs = o._refs + Call.outstanding cs - (N : Int) * 4294967296
            ∧ (N = 0 → o.InStep this → o1.InStep this) := by
  intro cs
  induction cs with
  | nil =>
    intro o o1 hw h
    simp only [ObjectWrap.calls] at h
    injection h with h
    subst h
    exact ⟨hw, 0, by simp [Call.outstanding_nil], fun _ hs => hs⟩
  | cons c cs ih =>
    intro o o1 hw h
    simp only [ObjectWrap.calls] at h
    cases hc : o.call this c with
    | fatal x => rw [hc] at h; cases h
    | ok o2 =>
      rw [hc] at h
      obtain ⟨hw2, N1, hr1, hs1⟩ := ObjectWrap.WellAttached_call this c o o2 hw hc
      obtain ⟨hw1, N2, hr2, hs2⟩ := ih o2 o1 hw2 h
      refine ⟨hw1, N1 + N2, ?_, ?_⟩
      · have hsplit : Call.outstanding (c :: cs)
            = Call.outstanding [c] + Call.outstanding cs := by
          cases c
          · rw [Call.outstanding_Ref, Call.outstanding_Ref, Call.outstanding_nil]; omega
          · rw [Call.outstanding_Unref, Call.outstanding_Unref, Call.outstanding_nil]; omega
          · rw [Call.outstanding_handle, Call.outstanding_handle, Call.outstanding_nil]; omega
        rw [hr2, hr1, hsplit]
        push_cast
        ring
      · intro hN hs
        have hN1 : N1 = 0 := by omega
        have hN2 : N2 = 0 := by omega
        exact hs2 hN2 (hs1 hN1 hs)

/-! ## C1 -/

/-- C1, counterexample. After Wrap on a fresh object and 2^31 successful calls to Ref
the object is in Strong mode (handle non-empty, not weak) while _refs, an int that
has wrapped, is not positive: Strong does not imply _refs > 0 on every reachable
state. -/
theorem C1_counterexample :
    ∃ o1 host1 o, ObjectWrap.new.Wrap 0 Host.blank 0 = .ok (o1, host1)
      ∧ o1.calls 0 (List.replicate 2147483648 Call.Ref) = .ok o
      ∧ o.lifetime_mode = Mode.Strong ∧ ¬ (o._refs > 0) := by
  refine ⟨_, _, _, rfl, ObjectWrap.calls_replicate_Ref 0 2147483647 _ rfl, ?_, ?_⟩
  · rfl
  · simp only [wrapInt32]
    decide

/-- C1, amended. For every state reached from a freshly constructed object by one
successful Wrap followed by a sequence of successful Ref, Unref and handle calls
during which fewer than 2^31 pins are outstanding after every step (calls to Ref so
far minus calls to Unref so far; the sequence itself may be of any length), and
after every step of that sequence, the object is in Strong mode if and only if
_refs > 0 and in Weak mode if and only if _refs = 0. -/
theorem C1_mode_iff_refs (this : ObjId) (host host1 : Host) (handle : SlotId)
    (o1 o : ObjectWrap) (cs : List Call)
    (hwrap : ObjectWrap.new.Wrap this host handle = .ok (o1, host1))
    (hcalls : o1.calls this cs = .ok o)
    (hbound : ∀ k : Nat, Call.outstanding (cs.take k) < 2147483648) :
    ∀ k : Nat, ∃ o2, o1.calls this (cs.take k) = .ok o2
      ∧ (o2.lifetime_mode = Mode.Strong ↔ o2._refs > 0)
      ∧ (o2.lifetime_mode = Mode.Weak ↔ o2._refs = 0) := by
  intro k
  obtain ⟨o2, h2⟩ := ObjectWrap.calls_take this cs o1 o k hcalls
  refine ⟨o2, h2, ?_⟩
  have hs0 := ObjectWrap.InStep_Wrap_new this host host1 handle o1 hwrap
  have hr0 : o1._refs = 0 := by rw [ObjectWrap.Wrap_new this host handle o1 host1 hwrap]
  obtain ⟨hs2, _⟩ := ObjectWrap.InStep_calls_outstanding this (cs.take k) o1 o2 hs0
    (fun j => by rw [hr0, List.take_take, zero_add]; exact hbound _) h2
  obtain ⟨he, h0, hw, _⟩ := ObjectWrap.InStep_attached this o2 hs2
  obtain ⟨hS, hW, _⟩ := ObjectWrap.lifetime_mode_cases o2
  rw [hS, hW]
  refine ⟨?_, hw⟩
  constructor
  · rintro ⟨_, hnw⟩
    have hne : ¬ o2._refs = 0 := fun hz => by rw [hw.mpr hz] at hnw; cases hnw
    omega
  · intro hpos
    refine ⟨he, ?_⟩
    cases hk : o2.persistent.IsWeak
    · rfl
    · have hz := hw.mp hk
      omega

/-- C1, witness: Wrap on a fresh object, then Ref, Ref, Unref, handle, Unref. -/
theorem C1_mode_iff_refs_witness :
    ObjectWrap.new.Wrap 4 Host.blank 9
        = .ok ({ _refs := 0, _handle := { val := some ⟨9, some 4, true, false⟩ } },
            Host.blank.store 9 { fields := [some 4] })
      ∧ ObjectWrap.calls 4 { _refs := 0, _handle := { val := some ⟨9, some 4, true, false⟩ } }
          [Call.Ref, Call.Ref, Call.Unref, Call.handle, Call.Unref]
        = .ok { _refs := 0, _handle := { val := some ⟨9, some 4, true, false⟩ } }
      ∧ (∀ k : Nat, Call.outstanding
          ([Call.Ref, Call.Ref, Call.Unref, Call.handle, Call.Unref].take k) < 2147483648)
      ∧ ∀ k : Nat, ∃ o2,
          ObjectWrap.calls 4 { _refs := 0, _handle := { val := some ⟨9, some 4, true, false⟩ } }
            ([Call.Ref, Call.Ref, Call.Unref, Call.handle, Call.Unref].take k) = .ok o2
          ∧ (o2.lifetime_mode = Mode.Strong ↔ o2._refs > 0)
          ∧ (o2.lifetime_mode = Mode.Weak ↔ o2._refs = 0) :=
  ⟨rfl, by decide, Call.outstanding_take_lt _ (by decide),
    C1_mode_iff_refs 4 Host.blank _ 9 _
      { _refs := 0, _handle := { val := some ⟨9, some 4, true, false⟩ } }
      [Call.Ref, Call.Ref, Call.Unref, Call.handle, Call.Unref] rfl (by decide)
      (Call.outstanding_take_lt _ (by decide))⟩

/-! ## C14 -/

/-- C14, counterexample. After Wrap on a fresh object and 2^31 calls to Ref, every one
of them returning normally, the counter _refs is negative. -/
theorem C14_counterexample :
    ∃ o1 host1 o, ObjectWrap.new.Wrap 0 Host.blank 0 = .ok (o1, host1)
      ∧ o1.calls 0 (List.replicate 2147483648 Call.Ref) = .ok o
      ∧ o._refs < 0 := by
  refine ⟨_, _, _, rfl, ObjectWrap.calls_replicate_Ref 0 2147483647 _ rfl, ?_⟩
  simp only [wrapInt32]
  decide

/-- C14, amended. The counter _refs is 0 after construction, 0 after a successful
Wrap, and at least 0 after every step of a sequence of successful Ref, Unref and
handle calls, of any length, during which fewer than 2^31 pins are outstanding after
every step (calls to Ref so far minus calls to Unref so far). -/
theorem C14_refs_nonneg (this : ObjId) (host host1 : Host) (handle : SlotId)
    (o1 o : ObjectWrap) (cs : List Call)
    (hwrap : ObjectWrap.new.Wrap this host handle = .ok (o1, host1))
    (hcalls : o1.calls this cs = .ok o)
    (hbound : ∀ k : Nat, Call.outstanding (cs.take k) < 2147483648) :
    ObjectWrap.new._refs = 0 ∧ o1._refs = 0
      ∧ ∀ k : Nat, ∃ o2, o1.calls this (cs.take k) = .ok o2 ∧ 0 ≤ o2._refs
          ∧ o2._refs = Call.outstanding (cs.take k) := by
  have hs0 := ObjectWrap.InStep_Wrap_new this host host1 handle o1 hwrap
  have hr0 : o1._refs = 0 := by rw [ObjectWrap.Wrap_new this host handle o1 host1 hwrap]
  refine ⟨rfl, hr0, ?_⟩
  intro k
  obtain ⟨o2, h2⟩ := ObjectWrap.calls_take this cs o1 o k hcalls
  obtain ⟨hs2, hr2⟩ := ObjectWrap.InStep_calls_outstanding this (cs.take k) o1 o2 hs0
    (fun j => by rw [hr0, List.take_take, zero_add]; exact hbound _) h2
  exact ⟨o2, h2, (ObjectWrap.InStep_attached this o2 hs2).2.1, by rw [hr2, hr0, zero_add]⟩

/-- C14, witness: Wrap on a fresh object, then Ref, Ref, Unref. -/
theorem C14_refs_nonneg_witness :
    ObjectWrap.new.Wrap 4 Host.blank 9
        = .ok ({ _refs := 0, _handle := { val := some ⟨9, some 4, true, false⟩ } },
            Host.blank.store 9 { fields := [some 4] })
      ∧ ObjectWrap.calls 4 { _refs := 0, _handle := { val := some ⟨9, some 4, true, false⟩ } }
          [Call.Ref, Call.Ref, Call.Unref]
        = .ok { _refs := 1, _handle := { val := some ⟨9, none, true, false⟩ } }
      ∧ (∀ k : Nat, Call.outstanding ([Call.Ref, Call.Ref, Call.Unref].take k) < 2147483648)
      ∧ ∀ k : Nat, ∃ o2,
          ObjectWrap.calls 4 { _refs := 0, _handle := { val := some ⟨9, some 4, true, false⟩ } }
            ([Call.Ref, Call.Ref, Call.Unref].take k) = .ok o2
          ∧ 0 ≤ o2._refs
          ∧ o2._refs = Call.outstanding ([Call.Ref, Call.Ref, Call.Unref].take k) :=
  ⟨rfl, by decide, Call.outstanding_take_lt _ (by decide),
    (C14_refs_nonneg 4 Host.blank _ 9 _
      { _refs := 1, _handle := { val := some ⟨9, none, true, false⟩ } }
      [Call.Ref, Call.Ref, Call.Unref] rfl (by decide)
      (Call.outstanding_take_lt _ (by decide))).2.2⟩

/-! ## C15 -/

/-- C15, counterexample. The attached state reached by Wrap on a fresh object and
2^31 - 1 calls to Ref: Ref returns normally on it and the Unref that follows fails.
And on the attached state in Weak mode with _refs = 1, Ref followed by Unref both
return normally and end in Strong mode, not in the state they started from. -/
theorem C15_counterexample :
    (∃ o1 host1 o o2, ObjectWrap.new.Wrap 0 Host.blank 0 = .ok (o1, host1)
        ∧ o1.calls 0 (List.replicate 2147483647 Call.Ref) = .ok o
        ∧ o.persistent.IsEmpty = false
        ∧ o.Ref = .ok o2
        ∧ (o2.Unref 0).isFatal = true)
      ∧ ObjectWrap.Ref { _refs := 1, _handle := { val := some ⟨0, some 0, true, false⟩ } }
          = .ok { _refs := 2, _handle := { val := some ⟨0, none, true, false⟩ } }
      ∧ ObjectWrap.Unref 0 { _refs := 2, _handle := { val := some ⟨0, none, true, false⟩ } }
          = .ok { _refs := 1, _handle := { val := some ⟨0, none, true, false⟩ } }
      ∧ ObjectWrap.lifetime_mode
            { _refs := 1, _handle := { val := some ⟨0, some 0, true, false⟩ } } = Mode.Weak
      ∧ ObjectWrap.lifetime_mode
            { _refs := 1, _handle := { val := some ⟨0, none, true, false⟩ } } = Mode.Strong := by
  refine ⟨⟨_, _, _, _, rfl, ObjectWrap.calls_replicate_Ref 0 2147483646 _ rfl, rfl,
    ObjectWrap.Ref_of_attached _ rfl, ?_⟩, by decide, by decide, by decide, by decide⟩
  simp only [wrapInt32]
  decide

/-- C15, amended. For every state reached from a freshly constructed object by a
successful Wrap and a sequence of successful Ref, Unref and handle calls of any
length, Ref followed by Unref both return normally and return exactly that state
if and only if the state is Weak, or Strong with 0 < _refs < 2^31 - 1. When the
sequence holds as many Unref calls as Ref calls it ends in Weak mode with
_refs = 0, and the run construct, Wrap, the sequence, then the collector firing, is
a run of the system that ends with the object freed. More generally Ref followed
by Unref returns exactly the state it started from on every state that is in step
(Weak as MakeWeak leaves it with _refs = 0, or Strong with _refs > 0) and has
_refs below 2^31 - 1. -/
theorem C15_pin_unpin_roundtrip (this : ObjId) (host host1 : Host) (s : SlotId)
    (o0 o2 : ObjectWrap) (cs : List Call)
    (hwrap : ObjectWrap.new.Wrap this host s = .ok (o0, host1))
    (hcalls : o0.calls this cs = .ok o2) :
    ((∃ o3, o2.Ref = .ok o3 ∧ o3.Unref this = .ok o2)
        ↔ (o2.lifetime_mode = Mode.Weak ∨ (0 < o2._refs ∧ o2._refs < 2147483647)))
      ∧ (cs.count Call.Ref = cs.count Call.Unref →
          o2._refs = 0 ∧ o2.lifetime_mode = Mode.Weak
            ∧ ∃ w, (World.init host).run
                  (.construct this :: .Wrap this s :: (cs.map (Call.toOp this) ++ [.collect this]))
                = some w
              ∧ w.heap this = .freed)
      ∧ (∀ o : ObjectWrap, o.InStep this → o._refs < 2147483647 →
          ∃ o3, o.Ref = .ok o3 ∧ o3.Unref this = .ok o) := by
  have hs0 := ObjectWrap.InStep_Wrap_new this host host1 s o0 hwrap
  have hr0 : o0._refs = 0 := by rw [ObjectWrap.Wrap_new this host s o0 host1 hwrap]
  obtain ⟨hwa, N, hrN, hsN⟩ := ObjectWrap.WellAttached_calls this cs o0 o2
    (ObjectWrap.WellAttached_Wrap_new this host host1 s o0 hwrap) hcalls
  obtain ⟨n, hv, hreg, hlo, hhi⟩ := hwa
  have he : o2.persistent.IsEmpty = false := by
    simp [ObjectWrap.persistent, Persistent.IsEmpty, hv]
  have hWk := (ObjectWrap.lifetime_mode_cases o2).2.1
  refine ⟨⟨?_, ?_⟩, ?_, fun o ho hmax => ObjectWrap.Ref_Unref_of_InStep this o ho hmax⟩
  · rintro ⟨o3, hR, hU⟩
    by_cases hW : o2.lifetime_mode = Mode.Weak
    · exact Or.inl hW
    · right
      rw [ObjectWrap.Ref_of_attached o2 he] at hR
      injection hR with hR
      subst hR
      have hnf : ¬ (ObjectWrap.Unref this
          { _refs := wrapInt32 (o2._refs + 1), _handle := o2.persistent.ClearWeak }).isFatal
            = true := by
        rw [hU]; simp [Outcome.isFatal]
      rw [ObjectWrap.Unref_isFatal_iff] at hnf
      simp only [not_or, Bool.not_eq_true, not_le] at hnf
      obtain ⟨he3, hw3, hpos3⟩ := hnf
      have hpos : 0 < wrapInt32 (o2._refs + 1) := hpos3
      have hmax : o2._refs < 2147483647 := by
        by_contra hcon
        have heq : o2._refs = 2147483647 := by omega
        rw [heq] at hpos
        simp only [wrapInt32] at hpos
        revert hpos
        decide
      have hr : wrapInt32 (o2._refs + 1) = o2._refs + 1 :=
        wrapInt32_of_range _ (by omega) (by omega)
      rw [hr] at hpos
      refine ⟨?_, hmax⟩
      by_contra hcon
      have hz : o2._refs = 0 := by omega
      rw [ObjectWrap.Unref_of_pinned this _ he3 hw3 hpos3] at hU
      have hback : wrapInt32 (wrapInt32 (o2._refs + 1) - 1) = 0 := by
        rw [hr, hz]
        decide
      simp only [hback, if_true] at hU
      injection hU with hU
      apply hW
      rw [hWk, ← hU]
      exact Persistent.IsWeak_MakeWeak _ this he3
  · intro hcond
    have hstep : o2.InStep this ∧ o2._refs < 2147483647 := by
      rcases hreg with hnone | ⟨hsome, hind, hz⟩
      · rcases hcond with hW | ⟨hpos, hmax⟩
        · rw [hWk] at hW
          simp [ObjectWrap.persistent, Persistent.IsWeak, hv, hnone] at hW
        · exact ⟨⟨n, hv, Or.inr ⟨hnone, hpos⟩⟩, hmax⟩
      · exact ⟨⟨n, hv, Or.inl ⟨hsome, hind, hz⟩⟩, by omega⟩
    exact ObjectWrap.Ref_Unref_of_InStep this o2 hstep.1 hstep.2
  · intro hbal
    have hout : Call.outstanding cs = 0 := by
      unfold Call.outstanding
      omega
    have hN : N = 0 := by
      rw [hr0, hout] at hrN
      omega
    have hz : o2._refs = 0 := by
      rw [hrN, hr0, hout, hN]
      simp
    have hs2 := hsN hN hs0
    obtain ⟨_, _, hwk, hcons⟩ := ObjectWrap.InStep_attached this o2 hs2
    have hweak : o2.persistent.IsWeak = true := hwk.mpr hz
    refine ⟨hz, hWk.mpr hweak, ?_⟩
    obtain ⟨w1, hrun1, hlive1, _⟩ := World.run_construct_Wrap host host1 this s o0 hwrap
    refine ⟨(w1.setCell this (.live o2)).setCell this .freed, ?_, World.heap_setCell_same _ _ _⟩
    have hsplit : (Op.construct this :: Op.Wrap this s
          :: (cs.map (Call.toOp this) ++ [Op.collect this]))
        = [Op.construct this, Op.Wrap this s]
            ++ (cs.map (Call.toOp this) ++ [Op.collect this]) := rfl
    rw [hsplit, World.run_append, hrun1]
    simp only [Option.some_bind]
    rw [World.run_append, World.run_toOp this cs w1 o0 hlive1, hcalls]
    simp only [Option.some_bind, World.run, World.exec, World.heap_setCell_same]
    rw [World.collect_of_consistent _ this o2 hcons, if_pos hweak]

/-- C15, witness: Wrap on a fresh object, then Ref, Ref, Unref, Unref. -/
theorem C15_pin_unpin_roundtrip_witness :
    ObjectWrap.new.Wrap 4 Host.blank 9
        = .ok ({ _refs := 0, _handle := { val := some ⟨9, some 4, true, false⟩ } },
            Host.blank.store 9 { fields := [some 4] })
      ∧ ObjectWrap.calls 4 { _refs := 0, _handle := { val := some ⟨9, some 4, true, false⟩ } }
          [Call.Ref, Call.Ref, Call.Unref, Call.Unref]
        = .ok { _refs := 0, _handle := { val := some ⟨9, some 4, true, false⟩ } }
      ∧ (∃ o3, ObjectWrap.Ref { _refs := 0, _handle := { val := some ⟨9, some 4, true, false⟩ } }
            = .ok o3
          ∧ o3.Unref 4
            = .ok { _refs := 0, _handle := { val := some ⟨9, some 4, true, false⟩ } })
      ∧ ∃ w, (World.init Host.blank).run
            [.construct 4, .Wrap 4 9, .Ref 4, .Ref 4, .Unref 4, .Unref 4, .collect 4] = some w
          ∧ w.heap 4 = .freed := by
  have h := C15_pin_unpin_roundtrip 4 Host.blank _ 9 _
    { _refs := 0, _handle := { val := some ⟨9, some 4, true, false⟩ } }
    [Call.Ref, Call.Ref, Call.Unref, Call.Unref] rfl (by decide)
  exact ⟨rfl, by decide, h.1.mpr (Or.inl rfl), (h.2.1 (by decide)).2.2⟩

/-! ## C16 -/

/-- C16. WeakCallback invoked on a state with _refs = 0, in particular on every Weak
state of the system, returns normally: the Reset leaves the handle empty, the
destructor run by delete then returns at once on the empty handle, so that the
outcome does not depend on whether the handle was near death, and the object is
left with an empty handle. As steps of the system, construct, Wrap and then the
collector firing, with no Ref in between, is a run that ends with the object
freed. -/
theorem C16_finalization_completes (wrap : ObjectWrap) (hr : wrap._refs = 0) :
    wrap.WeakCallback = .ok { wrap with _handle := { val := none } }
      ∧ (wrap._handle.Reset).IsEmpty = true
      ∧ ObjectWrap.destructor { wrap with _handle := wrap._handle.Reset }
          = .ok { wrap with _handle := wrap._handle.Reset }
      ∧ (wrap.persistent.IsNearDeath = false → wrap.WeakCallback.isOk = true)
      ∧ (∀ (host : Host) (i : ObjId) (s : SlotId), 0 < (host s).InternalFieldCount →
          ((World.init host).run [.construct i, .Wrap i s, .collect i]).map (fun w => w.heap i)
            = some Cell.freed) := by
  have h1 := ObjectWrap.WeakCallback_of_refs_zero wrap hr
  refine ⟨h1, rfl, rfl, fun _ => by rw [h1]; rfl, ?_⟩
  intro host i s hs
  simp [World.run, World.exec, World.init, World.setCell, World.collect, ObjectWrap.Wrap,
    ObjectWrap.new, ObjectWrap.persistent, Persistent.IsEmpty, hs, ObjectWrap.MakeWeak,
    Persistent.ResetTo, Persistent.SetWeak, Persistent.MarkIndependent, Persistent.Reset,
    ObjectWrap.WeakCallback, ObjectWrap.destructor]

/-- C16, witness: WeakCallback on the state that Wrap leaves, whose handle is not near
death. -/
theorem C16_finalization_completes_witness :
    ObjectWrap._refs { _refs := 0, _handle := { val := some ⟨9, some 4, true, false⟩ } } = 0
      ∧ ObjectWrap.lifetime_mode
          { _refs := 0, _handle := { val := some ⟨9, some 4, true, false⟩ } } = Mode.Weak
      ∧ ObjectWrap.WeakCallback { _refs := 0, _handle := { val := some ⟨9, some 4, true, false⟩ } }
          = .ok { _refs := 0, _handle := { val := none } } :=
  ⟨rfl, rfl,
    (C16_finalization_completes
      { _refs := 0, _handle := { val := some ⟨9, some 4, true, false⟩ } } rfl).1⟩

/-! ## C17 -/

/-- C17. The destructor fails at its assert whenever the handle is non-empty (the
object is attached, Weak or Strong) and not near death, and then leaves the state
as it is; it returns at once, without touching the handle, when the handle is
empty; and when it proceeds on an attached object whose handle is near death it
leaves the handle empty with no weak finaliser registered. -/
theorem C17_destructor (o : ObjectWrap) :
    (o.destructor.isFatal = true
        ↔ (o.persistent.IsEmpty = false ∧ o.persistent.IsNearDeath = false))
      ∧ ((o.lifetime_mode = Mode.Weak ∨ o.lifetime_mode = Mode.Strong) →
          o.persistent.IsNearDeath = false → o.destructor = .fatal o)
      ∧ (o.lifetime_mode = Mode.Unattached → o.destructor = .ok o)
      ∧ (o.persistent.IsEmpty = false → o.persistent.IsNearDeath = true →
          ∃ o1, o.destructor = .ok o1 ∧ o1.persistent.IsEmpty = true
            ∧ o1.persistent.IsWeak = false ∧ o1._refs = o._refs) := by
  obtain ⟨_, _, hU⟩ := ObjectWrap.lifetime_mode_cases o
  have hfat : o.persistent.IsEmpty = false → o.persistent.IsNearDeath = false →
      o.destructor = .fatal o := by
    intro he hn
    simp [ObjectWrap.destructor, he, hn]
  have hemp : o.persistent.IsEmpty = true → o.destructor = .ok o := by
    intro he
    simp [ObjectWrap.destructor, he]
  have hgo : o.persistent.IsEmpty = false → o.persistent.IsNearDeath = true →
      o.destructor = .ok { o with _handle := o.persistent.ClearWeak.Reset } := by
    intro he hn
    simp [ObjectWrap.destructor, he, hn]
  refine ⟨?_, ?_, fun hm => hemp (hU.mp hm), ?_⟩
  · constructor
    · intro hf
      cases he : o.persistent.IsEmpty with
      | true => rw [hemp he] at hf; cases hf
      | false =>
        cases hn : o.persistent.IsNearDeath with
        | false => exact ⟨rfl, rfl⟩
        | true => rw [hgo he hn] at hf; cases hf
    · rintro ⟨he, hn⟩
      rw [hfat he hn]
      rfl
  · intro hm hn
    apply hfat _ hn
    cases he : o.persistent.IsEmpty
    · rfl
    · have hu := hU.mpr he
      rcases hm with hm | hm <;> rw [hu] at hm <;> cases hm
  · intro he hn
    exact ⟨_, hgo he hn, rfl, rfl, rfl⟩

/-! ## C18 -/

/-- C18. For every live unattached object at address this and every host object s with
at least one internal field, Wrap succeeds, and after every further sequence of
successful Ref, Unref and handle calls on the object, however many of them are
handle calls, the object is live, handle() returns a Local that refers to s, and
Unwrap applied to that Local returns the address this. -/
theorem C18_export_handle_resolves (w : World) (this : ObjId) (s : SlotId) (o : ObjectWrap)
    (hlive : w.heap this = .live o) (he : o.persistent.IsEmpty = true)
    (hs : 0 < (w.host s).InternalFieldCount) :
    ∃ w1, w.exec (.Wrap this s) = some (.ok w1)
      ∧ ∀ (cs : List Call) (w2 : World), w1.run (cs.map (Call.toOp this)) = some w2 →
          ∃ o2, w2.heap this = .live o2 ∧ o2.handle = some s
            ∧ Unwrap w2.host o2.handle = some (some this) := by
  have hW := ObjectWrap.Wrap_of_unattached this o w.host s he hs
  have hx : w.exec (.Wrap this s) = some (.ok
      { heap := (w.setCell this (.live
          (ObjectWrap.MakeWeak this { o with _handle := o.persistent.ResetTo s }))).heap,
        host := w.host.store s ((w.host s).SetAlignedPointerInInternalField 0 (some this)) }) := by
    simp only [World.exec, hlive, hW]
  obtain ⟨w1, hw1, hl1, hh1⟩ : ∃ w1 : World, w.exec (.Wrap this s) = some (.ok w1)
      ∧ w1.heap this
          = .live (ObjectWrap.MakeWeak this { o with _handle := o.persistent.ResetTo s })
      ∧ w1.host
          = w.host.store s ((w.host s).SetAlignedPointerInInternalField 0 (some this)) :=
    ⟨_, hx, World.heap_setCell_same _ _ _, rfl⟩
  refine ⟨w1, hw1, ?_⟩
  intro cs w2 hrun
  rw [World.run_toOp this cs w1 _ hl1] at hrun
  cases hc : ObjectWrap.calls this
      (ObjectWrap.MakeWeak this { o with _handle := o.persistent.ResetTo s }) cs with
  | fatal x => rw [hc] at hrun; cases hrun
  | ok o2 =>
    rw [hc] at hrun
    simp only [Option.some.injEq] at hrun
    subst hrun
    obtain ⟨_, hh⟩ := ObjectWrap.calls_handle this cs
      (ObjectWrap.MakeWeak this { o with _handle := o.persistent.ResetTo s }) o2 rfl hc
    have hb : o2.handle = some s := hh.trans rfl
    refine ⟨o2, World.heap_setCell_same _ _ _, hb, ?_⟩
    rw [hb, World.host_setCell, hh1]
    exact Unwrap_after_Wrap this o _ w.host _ s hW

/-- C18, witness: a freshly constructed object at address 3 and the host object 7; after
Wrap, handle, Ref, handle, Unref, handle the Local that handle() returns refers to 7
and Unwrap on it returns 3. -/
theorem C18_export_handle_resolves_witness :
    ((World.init Host.blank).setCell 3 (.live ObjectWrap.new)).heap 3 = .live ObjectWrap.new
      ∧ ObjectWrap.new.persistent.IsEmpty = true
      ∧ 0 < (((World.init Host.blank).setCell 3 (.live ObjectWrap.new)).host 7).InternalFieldCount
      ∧ (((World.init Host.blank).setCell 3 (.live ObjectWrap.new)).run
            [.Wrap 3 7, .handle 3, .Ref 3, .handle 3, .Unref 3, .handle 3]).isSome = true
      ∧ ∃ w1, ((World.init Host.blank).setCell 3 (.live ObjectWrap.new)).exec (.Wrap 3 7)
            = some (.ok w1)
          ∧ ∀ (cs : List Call) (w2 : World), w1.run (cs.map (Call.toOp 3)) = some w2 →
              ∃ o2, w2.heap 3 = .live o2 ∧ o2.handle = some 7
                ∧ Unwrap w2.host o2.handle = some (some 3) :=
  ⟨rfl, rfl, by decide, by decide,
    C18_export_handle_resolves ((World.init Host.blank).setCell 3 (.live ObjectWrap.new)) 3 7
      ObjectWrap.new rfl rfl (by decide)⟩

end napa
